import Mathlib

/-!
# Repetier buffer-flow controller (`bufferflow_repetier.go`)

A shallow embedding of the Repetier variant of the buffer-flow controller of
serial-port-json-server, and theorems about it.

Modelling conventions.

* A Go `string` is an immutable sequence of bytes: `GoString := List UInt8`.
  `len` is the number of bytes.  Every regular expression of the source is built from
  ASCII literals and `.`; Go decodes the subject as UTF-8 (an invalid byte decodes to a
  rune of width one), a byte below 0x80 is always a rune of its own, and `.` accepts
  every rune but the line feed, so matching can be described byte by byte.
* Go `int` values are `Int`.  Lengths and byte totals stay far from the bounds of the
  type; the in-flight counter of the transport is decremented with the wrap-around of a
  64-bit `int` (`decInt`).
* The controller is used by several goroutines.  The embedding is sequential: every
  method is a function from the state before the call to the state after it.
  - `h.broadcastSys <- bm` appends the message to the field `broadcastSys`.  A message
    is recorded as the value handed to `json.Marshal` (or the fields of the literal JSON
    text for the wipe notice), not as its encoding.
  - `SetPaused(false, r)` starts a goroutine that offers `r` on the unbuffered channel
    `b.sem`; the field `sem` lists the offers issued and not yet consumed, oldest first.
  - `BlockUntilReady` may park on `<-b.sem`.  The value it eventually receives is an
    argument of the model (`unblockType`), and the result records whether the call parked.
* `log.Printf` / `log.Println` have no effect on the state and are omitted.
-/

namespace SPJS

/-! ## Strings -/

/-- A Go string: a sequence of bytes. -/
abbrev GoString := List UInt8

/-- The bytes (UTF-8) of a string literal of the source. -/
def str (s : String) : GoString := s.toUTF8.data.toList

/-- Go `len(s)`. -/
def len (s : GoString) : Int := (s.length : Int)

/-- Substring test: `strings.Contains(s, p)`, also the meaning of an unanchored
regular expression that is a plain literal `p`. -/
def containsSub (p : GoString) : GoString → Bool
  | [] => p.isPrefixOf []
  | c :: t => p.isPrefixOf (c :: t) || containsSub p t

/-- Go `strings.Split(s, "\n")`, with `cur` the piece being collected. -/
def stringsSplitLF (cur : GoString) : GoString → List GoString
  | [] => [cur]
  | c :: t => if c = 10 then cur :: stringsSplitLF [] t else stringsSplitLF (cur ++ [c]) t

/-- Go `strings.Replace(s, " ", "", -1)`. -/
def removeSpaces (s : GoString) : GoString := s.filter (fun c => c != 32)

/-! ## Regular expressions compiled in `Init` and used by `OnIncomingData` -/

/-- `b.reNewLine.Split(s, -1)` for the pattern `\r{0,1}\n{1,2}`, with `cur` the fragment
being collected.  Matches are found left to right and do not overlap; at a position the
expression matches an optional carriage return followed by one line feed and, greedily,
a second one.  A carriage return not followed by a line feed is ordinary text.  The
pattern never matches the empty string, so `Split` yields the text before each match and
the text after the last one. -/
def reNewLineSplit (cur : GoString) : GoString → List GoString
  | [] => [cur]
  | c :: t =>
    if c = 10 then
      match t with
      | [] => [cur, []]
      | d :: u =>
        if d = 10 then cur :: reNewLineSplit [] u else cur :: reNewLineSplit [] (d :: u)
    else if c = 13 then
      match t with
      | [] => [cur ++ [c]]
      | d :: u =>
        if d = 10 then
          match u with
          | [] => [cur, []]
          | e :: v =>
            if e = 10 then cur :: reNewLineSplit [] v else cur :: reNewLineSplit [] (e :: v)
        else reNewLineSplit (cur ++ [c]) (d :: u)
    else reNewLineSplit (cur ++ [c]) t

/-- `b.ok.MatchString(s)` for the pattern `^ok$` (no multi-line flag: `^` and `$` are the
two ends of the text). -/
def okMatch (s : GoString) : Bool := s == str "ok"

/-- `b.err.MatchString(s)` for the pattern `^error`. -/
def errMatch (s : GoString) : Bool := (str "error").isPrefixOf s

/-- `b.initline.MatchString(s)` for the pattern `Repetier`. -/
def initlineMatch (s : GoString) : Bool := containsSub (str "Repetier") s

/-- `b.rpt.MatchString(s)` for the pattern `^(ok C:|^ok X:)`. -/
def rptMatch (s : GoString) : Bool :=
  (str "ok C:").isPrefixOf s || (str "ok X:").isPrefixOf s

/-! ## Regular expressions of `BreakApartCommands` -/

/-- Whether a `)` is reached before a line feed or the end of the text: the condition
for `.*?\)` to match at this point. -/
def closesParen : GoString → Bool
  | [] => false
  | c :: t => if c = 41 then true else if c = 10 then false else closesParen t

/-- `regexp.MustCompile("\\(.*?\\)").ReplaceAllString(s, "")`: every match runs from a
`(` to the first `)` after it on the same line (the repetition is lazy).  `inside` tells
that the scan is within a match. -/
def stripParens (inside : Bool) : GoString → GoString
  | [] => []
  | c :: t =>
    if inside then (if c = 41 then stripParens false t else stripParens true t)
    else if c = 40 && closesParen t then stripParens true t
    else c :: stripParens false t

/-- `regexp.MustCompile(";.*").ReplaceAllString(s, "")`: every match runs from a `;` to
the end of its line (`.` does not accept the line feed).  `inside` tells that the scan
is within a match. -/
def stripSemicolon (inside : Bool) : GoString → GoString
  | [] => []
  | c :: t =>
    if c = 10 then c :: stripSemicolon false t
    else if inside then stripSemicolon true t
    else if c = 59 then stripSemicolon true t
    else c :: stripSemicolon false t

/-- The three rewrites `BreakApartCommands` applies to an item, in the order of the
source. -/
def stripItem (item : GoString) : GoString :=
  removeSpaces (stripSemicolon false (stripParens false item))

/-! ## `regexp.MatchString` for the directive predicates

The four `SeeIfSpecificCommands…Buffer` predicates compile their pattern on every call
with `regexp.MatchString(pattern, cmd)`, which returns `(false, err)` when the pattern
does not parse.  The patterns are alternations of single-character atoms (a bracketed
class, a literal, a parenthesised literal); the parser below follows Go's `regexp/syntax`
on that fragment and reports anything else as `outsideFragment`. -/

/-- Parse errors of `regexp/syntax` that the fragment can raise, and `outsideFragment`
for a pattern that is valid or invalid Go syntax beyond the fragment. -/
inductive ReErr where
  | invalidEscape
  | trailingBackslash
  | missingBracket
  | missingParen
  | outsideFragment
  deriving DecidableEq

/-- `isalnum` of `regexp/syntax`. -/
def isalnum (c : UInt8) : Bool :=
  (48 ≤ c && c ≤ 57) || (65 ≤ c && c ≤ 90) || (97 ≤ c && c ≤ 122)

/-- `parseEscape` of `regexp/syntax`, applied to the character after the backslash: the
C escapes `\a \f \n \r \t \v`, an escaped ASCII character that is neither a letter nor a
digit (it stands for itself), and otherwise the error "invalid escape sequence".  Octal
and hexadecimal escapes are outside the fragment. -/
def parseEscape (c : UInt8) : Except ReErr UInt8 :=
  if (48 ≤ c && c ≤ 55) || c = 120 then .error .outsideFragment
  else if c = 97 then .ok 7
  else if c = 102 then .ok 12
  else if c = 110 then .ok 10
  else if c = 114 then .ok 13
  else if c = 116 then .ok 9
  else if c = 118 then .ok 11
  else if c < 128 && !isalnum c then .ok c
  else .error .invalidEscape

/-- Where the parser stands: at the start of an alternative, inside a bracketed class
(`first` right after the `[`), or after the single atom of an alternative. -/
inductive ReMode where
  | start
  | cls (first : Bool)
  | after
  deriving DecidableEq

/-- Parses a pattern of the fragment into the set of bytes it accepts: the compiled
expression matches a text if and only if the text contains one of them.  `depth` counts
the open parentheses and `acc` collects the bytes. -/
def compileCharSet (mode : ReMode) (depth : Nat) (acc : List UInt8) :
    GoString → Except ReErr (List UInt8)
  | [] =>
    match mode with
    | .after => if depth = 0 then .ok acc else .error .missingParen
    | .cls _ => .error .missingBracket
    | .start => .error .outsideFragment
  | [92] => .error .trailingBackslash
  | 92 :: c :: t =>
    match mode with
    | .start =>
      -- \A \B \C \D \E \P \Q \S \W \b \d \p \s \w \z are not single characters
      if c ∈ [65, 66, 67, 68, 69, 80, 81, 83, 87, 98, 100, 112, 115, 119, 122] then
        .error .outsideFragment
      else
        match parseEscape c with
        | .ok r => compileCharSet .after depth (acc ++ [r]) t
        | .error e => .error e
    | .cls _ =>
      -- \p \P and the Perl classes \d \D \s \S \w \W
      if c ∈ [68, 80, 83, 87, 100, 112, 115, 119] then .error .outsideFragment
      else
        match parseEscape c with
        | .ok r => compileCharSet (.cls false) depth (acc ++ [r]) t
        | .error e => .error e
    | .after => .error .outsideFragment
  | c :: t =>
    match mode with
    | .start =>
      if c = 91 then compileCharSet (.cls true) depth acc t
      else if c = 40 then compileCharSet .start (depth + 1) acc t
      else if c ∈ [41, 42, 43, 46, 63, 36, 94, 123, 124, 125] || 128 ≤ c then
        .error .outsideFragment
      else compileCharSet .after depth (acc ++ [c]) t
    | .cls first =>
      if c = 93 then (if first then .error .outsideFragment else compileCharSet .after depth acc t)
      else if c = 45 || c = 91 || (c = 94 && first) || 128 ≤ c then .error .outsideFragment
      else compileCharSet (.cls false) depth (acc ++ [c]) t
    | .after =>
      if c = 124 then compileCharSet .start depth acc t
      else if c = 41 then
        (if depth = 0 then .error .outsideFragment else compileCharSet .after (depth - 1) acc t)
      else .error .outsideFragment

/-- `regexp.MatchString(pattern, s)` for a pattern of the fragment: the error of
`Compile`, or whether `s` contains a byte the pattern accepts. -/
def regexpMatchString (pattern s : GoString) : Except ReErr Bool :=
  match compileCharSet .start 0 [] pattern with
  | .ok cs => .ok (s.any (fun c => cs.contains c))
  | .error e => .error e

/-- The Go idiom `if match, _ := regexp.MatchString(pattern, s); match`: the error is
dropped and `match` is `false` when there is one. -/
def matchIgnoringError (pattern s : GoString) : Bool :=
  match regexpMatchString pattern s with
  | .ok m => m
  | .error _ => false

/-! ## Collaborators that are not among the sources -/

/-- Modelled from the spec: the Command Queue (type `Queue`, built by `NewQueue()`, whose
file is not among the sources).  An ordered FIFO sequence of command units `(text, id)`;
the byte length of a unit is the length of its text. -/
structure Queue where
  items : List (GoString × GoString)
  deriving DecidableEq

/-- Modelled from the spec: `push(text, id)` appends a unit; no bound is enforced. -/
def Queue.Push (q : Queue) (cmd id : GoString) : Queue := ⟨q.items ++ [(cmd, id)]⟩

/-- Modelled from the spec: `poll()` removes and returns the oldest unit, and returns
empty texts on an empty queue. -/
def Queue.Poll (q : Queue) : (GoString × GoString) × Queue :=
  match q.items with
  | [] => (([], []), q)
  | u :: rest => (u, ⟨rest⟩)

/-- Modelled from the spec: `countOfItems()`, the number of units. -/
def Queue.Len (q : Queue) : Int := (q.items.length : Int)

/-- Modelled from the spec: `totalBytes()`, the sum of the byte lengths of the units. -/
def Queue.LenOfCmds (q : Queue) : Int := (q.items.map (fun u => len u.1)).sum

/-- Modelled from the spec: `clear()` removes all units. -/
def Queue.Delete (_q : Queue) : Queue := ⟨[]⟩

/-- Modelled from the spec: the owning transport connection (type `serport`, whose file is
not among the sources), reduced to what `LocalBufferWipe` touches: the outbound staging
channel `sendBuffered` (the items waiting in it, and whether it has been closed), the
in-flight counter `itemsInBuffer` and the display name `portConf.Name`. -/
structure serport where
  sendBuffered : List (GoString × GoString)
  sendBufferedClosed : Bool
  itemsInBuffer : Int
  portConfName : GoString
  deriving DecidableEq

/-! ## Messages to the hub (`bufferflow.go`) -/

/-- `DataCmdComplete` of `bufferflow.go`. -/
structure DataCmdComplete where
  Cmd : GoString
  Id : GoString
  P : GoString
  BufSize : Int
  D : GoString
  deriving DecidableEq

/-- `DataPerLine` of `bufferflow.go`. -/
structure DataPerLine where
  P : GoString
  D : GoString
  deriving DecidableEq

/-- What is sent on `h.broadcastSys`. -/
inductive HubMsg where
  /-- A marshalled `DataCmdComplete` (`Cmd` is "Complete" or "Error"). -/
  | cmdComplete (m : DataCmdComplete)
  /-- A marshalled `DataPerLine`. -/
  | perLine (m : DataPerLine)
  /-- The text `{"Cmd":"WipedQueue","QCnt":n,"Port":"name"}`. -/
  | wipedQueue (QCnt : Int) (Port : GoString)
  deriving DecidableEq

/-! ## The controller -/

/-- `BufferflowRepetier`: the fields of the source that carry state, the pending offers on
`b.sem`, and the messages sent to the hub so far. -/
structure BufferflowRepetier where
  Name : GoString
  Port : GoString
  Paused : Bool
  BufferMax : Int
  q : Queue
  sem : List Int
  LatestData : GoString
  LastStatus : GoString
  version : GoString
  parent_serport : serport
  broadcastSys : List HubMsg
  deriving DecidableEq

namespace BufferflowRepetier

/-- `GetPaused`. -/
def GetPaused (b : BufferflowRepetier) : Bool := b.Paused

/-- `SetPaused`: sets the flag and, when unpausing, offers `semRelease` on `b.sem`. -/
def SetPaused (b : BufferflowRepetier) (isPaused : Bool) (semRelease : Int) :
    BufferflowRepetier :=
  let b1 := { b with Paused := isPaused }
  if isPaused = false then { b1 with sem := b1.sem ++ [semRelease] } else b1

/-- `ClearOutSemaphore`: consumes every pending offer on `b.sem` without blocking. -/
def ClearOutSemaphore (b : BufferflowRepetier) : BufferflowRepetier :=
  { b with sem := [] }

/-- `RewriteSerialData`. -/
def RewriteSerialData (_b : BufferflowRepetier) (_cmd _id : GoString) : GoString := str ""

/-- `Pause`. -/
def Pause (b : BufferflowRepetier) : BufferflowRepetier := b.SetPaused true 0

/-- `Unpause`. -/
def Unpause (b : BufferflowRepetier) : BufferflowRepetier := b.SetPaused false 1

/-- `ReleaseLock`: deletes the queue and unpauses with release 2. -/
def ReleaseLock (b : BufferflowRepetier) : BufferflowRepetier :=
  ({ b with q := b.q.Delete }).SetPaused false 2

/-- The value of the integer `x` as a Go `int` (64 bits, two's complement): arithmetic on
`int` wraps around. -/
def wrapInt64 (x : Int) : Int :=
  (x + 9223372036854775808) % 18446744073709551616 - 9223372036854775808

/-- Go `n--` on an `int`. -/
def decInt (n : Int) : Int := wrapInt64 (n - 1)

/-- The drain loop of `LocalBufferWipe`: every item waiting in `p.sendBuffered` is received
and `p.itemsInBuffer--` is run for it; on a closed channel one more receive succeeds with
`ok == false`, is counted as well (the decrement comes before the test of `ok`), and ends
the loop. -/
def drainSendBuffered (p : serport) : serport :=
  let n := p.sendBuffered.foldl (fun n _ => decInt n) p.itemsInBuffer
  { p with sendBuffered := [],
           itemsInBuffer := if p.sendBufferedClosed then decInt n else n }

/-- `LocalBufferWipe(b.parent_serport)`. -/
def LocalBufferWipe (b : BufferflowRepetier) : BufferflowRepetier :=
  let b1 := { b with parent_serport := drainSendBuffered b.parent_serport }
  let b2 := b1.ReleaseLock
  { b2 with broadcastSys := b2.broadcastSys ++
      [HubMsg.wipedQueue b2.parent_serport.itemsInBuffer b2.parent_serport.portConfName] }

/-- `SeeIfSpecificCommandsShouldSkipBuffer`. -/
def SeeIfSpecificCommandsShouldSkipBuffer (_b : BufferflowRepetier) (cmd : GoString) : Bool :=
  if matchIgnoringError (str "[!~\\M114]|(\u0018)") cmd then true else false

/-- `SeeIfSpecificCommandsShouldPauseBuffer`. -/
def SeeIfSpecificCommandsShouldPauseBuffer (_b : BufferflowRepetier) (cmd : GoString) : Bool :=
  if matchIgnoringError (str "[!]") cmd then true else false

/-- `SeeIfSpecificCommandsShouldUnpauseBuffer`. -/
def SeeIfSpecificCommandsShouldUnpauseBuffer (_b : BufferflowRepetier) (cmd : GoString) :
    Bool :=
  if matchIgnoringError (str "[~]") cmd then true else false

/-- `SeeIfSpecificCommandsShouldWipeBuffer`. -/
def SeeIfSpecificCommandsShouldWipeBuffer (_b : BufferflowRepetier) (cmd : GoString) : Bool :=
  if matchIgnoringError (str "(\u0018)") cmd then true else false

/-- `SeeIfSpecificCommandsReturnNoResponse`. -/
def SeeIfSpecificCommandsReturnNoResponse (_b : BufferflowRepetier) (_cmd : GoString) :
    Bool := false

/-- What a call to `BlockUntilReady` leaves behind: the state (when the call parks: the
state at the moment it starts waiting on `b.sem`), whether it parked, and the three
values it returns. -/
structure BlockResult where
  state : BufferflowRepetier
  waited : Bool
  ret : Bool × Bool × GoString
  deriving DecidableEq

/-- `BlockUntilReady(cmd, id)`, where `unblockType` is the value received from `b.sem` in
case the call parks. -/
def BlockUntilReady (b : BufferflowRepetier) (cmd id : GoString) (unblockType : Int) :
    BlockResult :=
  let b1 := { b with q := b.q.Push cmd id }
  let b2 := if b1.q.LenOfCmds ≥ b1.BufferMax then b1.SetPaused true 0 else b1
  if b2.GetPaused then
    let b3 := b2.ClearOutSemaphore
    if unblockType = 2 then ⟨b3, true, (false, false, str "")⟩
    else ⟨b3, true, (true, true, str "")⟩
  else ⟨b2, false, (true, true, str "")⟩

/-- The body of the loop of `OnIncomingData` for one complete line `element`. -/
def processLine (b : BufferflowRepetier) (element : GoString) : BufferflowRepetier :=
  let b1 :=
    if okMatch element || errMatch element then
      let b2 :=
        if b.q.Len > 0 then
          let r := b.q.Poll
          let doneCmd := r.1.1
          let id := r.1.2
          let bq := { b with q := r.2 }
          if okMatch element then
            { bq with broadcastSys := bq.broadcastSys ++
                [HubMsg.cmdComplete ⟨str "Complete", id, bq.Port, bq.q.LenOfCmds, doneCmd⟩] }
          else if errMatch element then
            { bq with broadcastSys := bq.broadcastSys ++
                [HubMsg.cmdComplete ⟨str "Error", id, bq.Port, bq.q.LenOfCmds, doneCmd⟩] }
          else bq
        else b
      if b2.q.LenOfCmds < b2.BufferMax then
        if b2.GetPaused then b2.SetPaused false 1 else b2
      else b2
    else if initlineMatch element then
      let b2 := b.LocalBufferWipe
      let b3 := if b2.GetPaused then b2.SetPaused false 2 else b2
      { b3 with version := element }
    else if rptMatch element then
      { b with LastStatus := element }
    else b
  { b1 with broadcastSys := b1.broadcastSys ++ [HubMsg.perLine ⟨b1.Port, element ++ str "\n"⟩] }

/-- `OnIncomingData(data)`. -/
def OnIncomingData (b : BufferflowRepetier) (data : GoString) : BufferflowRepetier :=
  let b1 := { b with LatestData := b.LatestData ++ data }
  let arrLines := reNewLineSplit [] b1.LatestData
  if arrLines.length > 1 then
    let b2 := arrLines.dropLast.foldl processLine b1
    { b2 with LatestData := arrLines.getLastD [] }
  else b1

/-- One item of the loop of `BreakApartCommands`: the controller and the list `finalCmds`
before and after. -/
def breakItem (st : BufferflowRepetier × List GoString) (item0 : GoString) :
    BufferflowRepetier × List GoString :=
  let b := st.1
  let finalCmds := st.2
  let item := removeSpaces (stripSemicolon false (stripParens false item0))
  if item = str "*init*" then
    ({ b with broadcastSys := b.broadcastSys ++
        [HubMsg.perLine ⟨b.Port, b.version ++ str "\n"⟩] }, finalCmds)
  else if item = str "*status*" then
    ({ b with broadcastSys := b.broadcastSys ++
        [HubMsg.perLine ⟨b.Port, b.LastStatus ++ str "\n"⟩] }, finalCmds)
  else if item = str "M114" then
    (b, finalCmds ++ [item ++ str "\n"])
  else if item = str "%" then
    (b.LocalBufferWipe, finalCmds)
  else if item ≠ str "" then
    (b, finalCmds ++ [item ++ str "\n"])
  else (b, finalCmds)

/-- `BreakApartCommands(cmd)`: the controller afterwards and the list returned. -/
def BreakApartCommands (b : BufferflowRepetier) (cmd : GoString) :
    BufferflowRepetier × List GoString :=
  (stringsSplitLF [] cmd).foldl breakItem (b, [])

end BufferflowRepetier

/-! ## Feeding a stream in chunks, and the lines of a stream -/

/-- Feeding the chunks to `OnIncomingData` one after another. -/
def feed (b : BufferflowRepetier) (chunks : List GoString) : BufferflowRepetier :=
  chunks.foldl BufferflowRepetier.OnIncomingData b

/-- A per-line message for an empty line: its text is the line feed alone. -/
def isEmptyLineMsg : HubMsg → Bool
  | .perLine m => m.D == [10]
  | _ => false

/-- The messages other than the per-line messages of empty lines. -/
def withoutEmptyLines (msgs : List HubMsg) : List HubMsg :=
  msgs.filter (fun m => !isEmptyLineMsg m)

/-- The text without a final carriage return. -/
def stripCR (s : GoString) : GoString :=
  if s.getLast? = some 13 then s.dropLast else s

/-- The text before each line feed of a stream, a carriage return right before the line
feed dropped; `cur` is the text collected since the last line feed. -/
def linesLF (cur : GoString) : GoString → List GoString
  | [] => []
  | c :: t => if c = 10 then stripCR cur :: linesLF [] t else linesLF (cur ++ [c]) t

/-- The text after the last line feed of a stream. -/
def restLF (cur : GoString) : GoString → GoString
  | [] => cur
  | c :: t => if c = 10 then restLF [] t else restLF (cur ++ [c]) t

/-- A fragment that is not empty. -/
def nonEmptyFrag (l : GoString) : Bool := !l.isEmpty

/-- The controller with its accumulator replaced. -/
def setLatestData (b : BufferflowRepetier) (x : GoString) : BufferflowRepetier :=
  { b with LatestData := x }

/-- The controller with the per-line messages of empty lines removed from what it has
sent to the hub. -/
def dropEmptyLines (b : BufferflowRepetier) : BufferflowRepetier :=
  { b with broadcastSys := withoutEmptyLines b.broadcastSys }

/-! ## Auxiliary definitions for the statements -/

/-- The data made of `n` copies of "ok\n". -/
def okLines (n : Nat) : GoString := (List.replicate n (str "ok\n")).flatten

/-- The messages sent while the first `n` units of `items` are acknowledged by "ok" lines. -/
def okMsgs (port : GoString) (items : List (GoString × GoString)) (n : Nat) : List HubMsg :=
  (List.range n).flatMap (fun i =>
    [HubMsg.cmdComplete ⟨str "Complete", (items.getD i ([], [])).2, port,
        Queue.LenOfCmds ⟨items.drop (i + 1)⟩, (items.getD i ([], [])).1⟩,
     HubMsg.perLine ⟨port, str "ok\n"⟩])

/-- A line that `OnIncomingData` treats as the firmware banner. -/
def isBannerLine (l : GoString) : Bool := !(okMatch l || errMatch l) && initlineMatch l

/-- Between `x` and `r` either nothing was released and the gate did not move, or the gate
was paused, is now open, and exactly one release 1 was issued. -/
def atMostOneResume (x r : BufferflowRepetier) : Prop :=
  (r.sem = x.sem ∧ r.Paused = x.Paused) ∨
  (x.Paused = true ∧ r.Paused = false ∧ r.sem = x.sem ++ [1])

/-- What one line of a submission contributes to the output of `BreakApartCommands`, with
the stripping of the source. -/
def itemOutput (line : GoString) : Option GoString :=
  if stripItem line ≠ [] ∧ stripItem line ≠ str "*init*" ∧ stripItem line ≠ str "*status*" ∧
      stripItem line ≠ str "%" then
    some (stripItem line ++ str "\n")
  else none

/-- Reference definition of the removal of parenthesized comments from one line, in the
words of the specification: a comment is the text from a `(` up to and including the next
`)`.  The text before the first `(` stays; if a `)` follows that `(`, everything up to
and including the first such `)` is cut out and the rest of the line is treated in the
same way; if none follows, the line has no further comment.  `fuel` bounds the number of
comments cut out. -/
def referenceRemoveComments : Nat → GoString → GoString
  | 0, s => s
  | fuel + 1, s =>
    match s.dropWhile (fun c => c != 40) with
    | [] => s
    | _ :: afterOpen =>
      if 41 ∈ afterOpen then
        s.takeWhile (fun c => c != 40) ++
          referenceRemoveComments fuel ((afterOpen.dropWhile (fun c => c != 41)).drop 1)
      else s

/-- Reference definition of the stripping of one line, in the words of the specification:
parenthesized comments are removed, then a comment from the first semicolon to the end of
the line, then the spaces. -/
def referenceStrip (line : GoString) : GoString :=
  ((referenceRemoveComments line.length line).takeWhile (fun c => c != 59)).filter
    (fun c => c != 32)

/-- Reference definition of `BreakApartCommands`, in the words of the specification: the
lines of the submission split on the line feed, each stripped; a line whose stripped text
is empty, "*init*", "*status*" or "%" gives nothing, every other line gives its stripped
text followed by a line feed. -/
def breakApartReference (s : GoString) : List GoString :=
  (s.splitOn 10).filterMap (fun line =>
    if referenceStrip line = [] ∨ referenceStrip line = str "*init*" ∨
        referenceStrip line = str "*status*" ∨ referenceStrip line = str "%" then none
    else some (referenceStrip line ++ str "\n"))

/-! ## Further definitions for the statements -/

/-- `Init`: `SetPaused(false, 1)` opens the gate and starts a goroutine that will offer 1
on `b.sem`; the capacity is set to 127 bytes, the queue is created, and `b.sem` becomes a
new channel.  The goroutine reads `b.sem` when it runs, which is after that assignment, so
its offer is what is pending on the new channel.  The status poller started by
`rptQueryLoop` writes to the transport only and is not part of the state. -/
def BufferflowRepetier.Init (b : BufferflowRepetier) : BufferflowRepetier :=
  let b1 := b.SetPaused false 1
  let b2 := { b1 with BufferMax := 127, q := ⟨[]⟩ }
  { b2 with sem := [1] }

/-- The per-line messages among `msgs`, in order. -/
def perLineMsgs : List HubMsg → List DataPerLine
  | [] => []
  | HubMsg.perLine m :: t => m :: perLineMsgs t
  | HubMsg.cmdComplete _ :: t => perLineMsgs t
  | HubMsg.wipedQueue _ _ :: t => perLineMsgs t

/-- No `(` of the text is followed, anywhere later, by a `)`. -/
def noParenPair : GoString → Bool
  | [] => true
  | c :: t => (!(c == 40) || !(t.contains 41)) && noParenPair t

/-! ## Concrete states used in the examples -/

/-- A controller on port "COM1" with capacity `cap`, the units `units` in its queue, the
gate `paused`, and nothing received or sent yet. -/
def mkState (cap : Int) (units : List (GoString × GoString)) (paused : Bool) :
    BufferflowRepetier :=
  { Name := str "repetier", Port := str "COM1", Paused := paused, BufferMax := cap,
    q := ⟨units⟩, sem := [], LatestData := [], LastStatus := [], version := [],
    parent_serport := ⟨[], false, 0, str "COM1"⟩, broadcastSys := [] }

/-- Three commands of four bytes each, with the ids a, b, c. -/
def threeUnits : List (GoString × GoString) :=
  [(str "G1X1", str "a"), (str "G1X2", str "b"), (str "G1X3", str "c")]

/-- A controller whose transport has one command staged, an in-flight counter of 1, and a
staging channel that has been closed. -/
def closedPortState : BufferflowRepetier :=
  { mkState 10 threeUnits true with
    parent_serport := ⟨[(str "G1X1\n", str "a")], true, 1, str "COM1"⟩ }

/-- A controller whose transport has two commands staged in its open staging channel and
an in-flight counter of 2. -/
def stagedPortState : BufferflowRepetier :=
  { mkState 10 threeUnits true with
    parent_serport :=
      ⟨[(str "G1X2\n", str "b"), (str "G1X3\n", str "c")], false, 2, str "COM1"⟩ }

/-- A run of one call `OnIncomingData("ok\nok\n")` together with the sender goroutine, from
capacity 10, three units of four bytes queued and the gate paused: the state after the
loop body has processed the first line "ok". -/
def traceAfterFirstOk : BufferflowRepetier :=
  (mkState 10 threeUnits true).processLine (str "ok")

/-- The same run: the sender, released by the first line, has submitted its next command
(four bytes, id d) with `BlockUntilReady` and waits; the state at that moment. -/
def traceAfterSender : BufferflowRepetier :=
  (traceAfterFirstOk.BlockUntilReady (str "G1X4") (str "d") 1).state

/-- The same run: the state after the loop body has processed the second line "ok". -/
def traceAfterSecondOk : BufferflowRepetier :=
  traceAfterSender.processLine (str "ok")

/-! ## `BlockUntilReady` -/

open BufferflowRepetier

theorem Queue.LenOfCmds_Push (q : Queue) (cmd id : GoString) :
    (q.Push cmd id).LenOfCmds = q.LenOfCmds + len cmd := by
  simp [Queue.Push, Queue.LenOfCmds]

theorem Queue.Len_Push (q : Queue) (cmd id : GoString) :
    (q.Push cmd id).Len = q.Len + 1 := by
  simp [Queue.Push, Queue.Len]

/-- C2 (as stated, refuted): capacity 10, gate open, two units of four bytes queued (8 bytes,
below capacity); the call for a third command of four bytes brings the total to 12 and
does not return without waiting: it parks on the handoff. -/
theorem C2_crossing_call_parks :
    (mkState 10 (threeUnits.take 2) false).Paused = false ∧
    (mkState 10 (threeUnits.take 2) false).q.LenOfCmds < (mkState 10 (threeUnits.take 2) false).BufferMax ∧
    ((mkState 10 (threeUnits.take 2) false).q.Push (str "G1X3") (str "c")).LenOfCmds ≥ 10 ∧
    ((mkState 10 (threeUnits.take 2) false).BlockUntilReady (str "G1X3") (str "c") 1).waited = true := by
  decide

/-- C2 (amended): when the gate is open and the queue holds fewer than `BufferMax` bytes, a
call whose push brings the total to `BufferMax` or above appends its unit, pauses the gate
and itself waits on the handoff; what it returns is decided by the release it receives
(`(false, false, "")` for 2, `(true, true, "")` otherwise); and while the gate stays paused
every further call waits as well. -/
theorem C2_crossing_call_pauses_and_waits (b : BufferflowRepetier) (cmd id : GoString)
    (u : Int) (_hp : b.Paused = false) (_hlt : b.q.LenOfCmds < b.BufferMax)
    (hge : (b.q.Push cmd id).LenOfCmds ≥ b.BufferMax) :
    (b.BlockUntilReady cmd id u).waited = true ∧
    (b.BlockUntilReady cmd id u).state.Paused = true ∧
    (b.BlockUntilReady cmd id u).state.q = b.q.Push cmd id ∧
    (b.BlockUntilReady cmd id u).ret
      = (if u = 2 then (false, false, str "") else (true, true, str "")) ∧
    ∀ (cmd2 id2 : GoString) (u2 : Int),
      ((b.BlockUntilReady cmd id u).state.BlockUntilReady cmd2 id2 u2).waited = true := by
  have hge2 : b.BufferMax ≤ (b.q.Push cmd id).LenOfCmds := hge
  refine ⟨?_, ?_, ?_, ?_, ?_⟩
  · simp [BlockUntilReady, hge2, SetPaused, GetPaused]
    split <;> rfl
  · simp [BlockUntilReady, hge2, SetPaused, GetPaused, ClearOutSemaphore]
    split <;> rfl
  · simp [BlockUntilReady, hge2, SetPaused, GetPaused, ClearOutSemaphore]
    split <;> rfl
  · simp [BlockUntilReady, hge2, SetPaused, GetPaused, ClearOutSemaphore]
    split <;> simp_all
  · intro cmd2 id2 u2
    have hs : (b.BlockUntilReady cmd id u).state.Paused = true := by
      simp [BlockUntilReady, hge2, SetPaused, GetPaused, ClearOutSemaphore]
      split <;> rfl
    generalize (b.BlockUntilReady cmd id u).state = s at hs
    simp only [BlockUntilReady, GetPaused, SetPaused]
    split_ifs <;> simp_all

/-- C2 (amended), the scenario: capacity 10 and commands of four bytes.  The first two calls
return at once, the third (total 12) pauses the gate and waits, and so does a fourth. -/
theorem C2_crossing_call_pauses_and_waits_witness :
    ((mkState 10 [] false).BlockUntilReady (str "G1X1") (str "a") 1).waited = false ∧
    ((mkState 10 (threeUnits.take 1) false).BlockUntilReady (str "G1X2") (str "b") 1).waited
      = false ∧
    ((mkState 10 (threeUnits.take 2) false).BlockUntilReady (str "G1X3") (str "c") 1).waited
      = true ∧
    ((mkState 10 (threeUnits.take 2) false).BlockUntilReady (str "G1X3") (str "c") 1).state.Paused
      = true ∧
    ((mkState 10 (threeUnits.take 2) false).BlockUntilReady (str "G1X3") (str "c") 1).state.q
      = ⟨threeUnits⟩ ∧
    (((mkState 10 (threeUnits.take 2) false).BlockUntilReady (str "G1X3") (str "c") 1).state.BlockUntilReady
      (str "G1X4") (str "d") 1).waited = true := by
  have h := C2_crossing_call_pauses_and_waits (mkState 10 (threeUnits.take 2) false)
    (str "G1X3") (str "c") 1 (by decide) (by decide) (by decide)
  exact ⟨by decide, by decide, h.1, h.2.1, by decide, h.2.2.2.2 _ _ _⟩

/-- C3: `BlockUntilReady(cmd, id)` first appends `(cmd, id)` at the tail of the queue (one
more unit, `len(cmd)` more bytes, the earlier units untouched); it returns
`(true, true, "")` without waiting exactly when the gate was not paused before the call and
the total after the push is below `BufferMax`; otherwise the gate is paused and the call
waits on the handoff. -/
theorem C3_blocking_condition (b : BufferflowRepetier) (cmd id : GoString) (u : Int) :
    (b.BlockUntilReady cmd id u).state.q.items = b.q.items ++ [(cmd, id)] ∧
    (b.BlockUntilReady cmd id u).state.q.Len = b.q.Len + 1 ∧
    (b.BlockUntilReady cmd id u).state.q.LenOfCmds = b.q.LenOfCmds + len cmd ∧
    ((b.BlockUntilReady cmd id u).waited = false ↔
      (b.Paused = false ∧ (b.BlockUntilReady cmd id u).state.q.LenOfCmds < b.BufferMax)) ∧
    ((b.BlockUntilReady cmd id u).waited = false →
      (b.BlockUntilReady cmd id u).ret = (true, true, str "") ∧
      (b.BlockUntilReady cmd id u).state.Paused = false) ∧
    ((b.BlockUntilReady cmd id u).waited = true →
      (b.BlockUntilReady cmd id u).state.Paused = true) := by
  have hq : (b.BlockUntilReady cmd id u).state.q = b.q.Push cmd id := by
    simp only [BlockUntilReady, GetPaused, SetPaused, ClearOutSemaphore]
    split_ifs <;> rfl
  rw [hq]
  refine ⟨rfl, Queue.Len_Push _ _ _, Queue.LenOfCmds_Push _ _ _, ?_, ?_, ?_⟩
  · simp only [BlockUntilReady, GetPaused, SetPaused, ClearOutSemaphore]
    split_ifs <;> simp_all
  · simp only [BlockUntilReady, GetPaused, SetPaused, ClearOutSemaphore]
    split_ifs <;> simp_all
  · simp only [BlockUntilReady, GetPaused, SetPaused, ClearOutSemaphore]
    split_ifs <;> simp_all

/-- C4: `BlockUntilReady` waits exactly when the gate is paused before the call or the push
brings the byte total to `BufferMax` or above; its result is `(false, false, "")` exactly
when it waits and the release it receives is 2 (WIPE), and `(true, true, "")` in every
other case (no wait, or a release other than 2).  So the two booleans are always equal and
the rewritten string is always empty, as is the result of `RewriteSerialData`. -/
theorem C4_release_semantics (b : BufferflowRepetier) (cmd id : GoString) (u : Int) :
    ((b.BlockUntilReady cmd id u).waited = true ↔
      (b.Paused = true ∨ b.BufferMax ≤ (b.q.Push cmd id).LenOfCmds)) ∧
    ((b.BlockUntilReady cmd id u).ret = (false, false, str "") ↔
      ((b.Paused = true ∨ b.BufferMax ≤ (b.q.Push cmd id).LenOfCmds) ∧ u = 2)) ∧
    ((b.BlockUntilReady cmd id u).ret = (true, true, str "") ↔
      ((b.Paused = false ∧ (b.q.Push cmd id).LenOfCmds < b.BufferMax) ∨ u ≠ 2)) ∧
    ((b.BlockUntilReady cmd id u).ret = (false, false, str "") ↔
      ((b.BlockUntilReady cmd id u).waited = true ∧ u = 2)) ∧
    (¬ ((b.BlockUntilReady cmd id u).waited = true ∧ u = 2) →
      (b.BlockUntilReady cmd id u).ret = (true, true, str "")) ∧
    (b.BlockUntilReady cmd id u).ret.1 = (b.BlockUntilReady cmd id u).ret.2.1 ∧
    (b.BlockUntilReady cmd id u).ret.2.2 = str "" ∧
    b.RewriteSerialData cmd id = str "" := by
  have hcases : b.BufferMax ≤ (b.q.Push cmd id).LenOfCmds ∨
      (b.q.Push cmd id).LenOfCmds < b.BufferMax := le_or_lt _ _
  refine ⟨?_, ?_, ?_, ?_, ?_, ?_, ?_, rfl⟩ <;>
  · simp only [BlockUntilReady, GetPaused, SetPaused, ClearOutSemaphore]
    rcases hcases with hc | hc
    · have hc' : ¬ (b.q.Push cmd id).LenOfCmds < b.BufferMax := not_lt.mpr hc
      split_ifs <;> simp_all
    · have hc' : ¬ b.BufferMax ≤ (b.q.Push cmd id).LenOfCmds := not_le.mpr hc
      split_ifs <;> simp_all

/-- C4, instances: a call that finds the gate paused and is released with 2 returns
`(false, false, "")`; released with 1 it returns `(true, true, "")`; a call that finds the
gate open and stays below the capacity does not wait and returns `(true, true, "")`
whatever release value is around. -/
theorem C4_release_semantics_witness :
    ((mkState 10 threeUnits true).BlockUntilReady (str "G1X4") (str "d") 2).waited = true ∧
    ((mkState 10 threeUnits true).BlockUntilReady (str "G1X4") (str "d") 2).ret
      = (false, false, str "") ∧
    ((mkState 10 threeUnits true).BlockUntilReady (str "G1X4") (str "d") 1).ret
      = (true, true, str "") ∧
    ((mkState 10 (threeUnits.take 1) false).BlockUntilReady (str "G1X2") (str "b") 2).waited
      = false ∧
    ((mkState 10 (threeUnits.take 1) false).BlockUntilReady (str "G1X2") (str "b") 2).ret
      = (true, true, str "") :=
  ⟨(C4_release_semantics (mkState 10 threeUnits true) (str "G1X4") (str "d") 2).1.mpr
      (Or.inl rfl),
   (C4_release_semantics (mkState 10 threeUnits true) (str "G1X4") (str "d") 2).2.1.mpr
      ⟨Or.inl rfl, rfl⟩,
   (C4_release_semantics (mkState 10 threeUnits true) (str "G1X4") (str "d") 1).2.2.1.mpr
      (Or.inr (by decide)),
   by decide,
   (C4_release_semantics (mkState 10 (threeUnits.take 1) false) (str "G1X2") (str "b")
      2).2.2.1.mpr (Or.inl ⟨rfl, by decide⟩)⟩

/-! ## The line splitter -/

theorem stripCR_append_cr (cur : GoString) : stripCR (cur ++ [13]) = cur := by
  simp [stripCR]

theorem stripCR_of_not_cr (cur : GoString) (h : cur.getLast? ≠ some 13) : stripCR cur = cur := by
  simp [stripCR, h]

theorem split_nil (cur : GoString) : reNewLineSplit cur [] = [cur] := rfl

theorem split_lf (cur : GoString) : reNewLineSplit cur [10] = [cur, []] := by
  rw [reNewLineSplit.eq_def]; simp

theorem split_lf_lf (cur u : GoString) :
    reNewLineSplit cur (10 :: 10 :: u) = cur :: reNewLineSplit [] u := by
  rw [reNewLineSplit.eq_def]; simp

theorem split_lf_other (cur u : GoString) (d : UInt8) (h : d ≠ 10) :
    reNewLineSplit cur (10 :: d :: u) = cur :: reNewLineSplit [] (d :: u) := by
  rw [reNewLineSplit.eq_def]; simp [h]

theorem split_cr (cur : GoString) : reNewLineSplit cur [13] = [cur ++ [13]] := by
  rw [reNewLineSplit.eq_def]; simp

theorem split_cr_lf (cur : GoString) : reNewLineSplit cur [13, 10] = [cur, []] := by
  rw [reNewLineSplit.eq_def]; simp

theorem split_cr_lf_lf (cur v : GoString) :
    reNewLineSplit cur (13 :: 10 :: 10 :: v) = cur :: reNewLineSplit [] v := by
  rw [reNewLineSplit.eq_def]; simp

theorem split_cr_lf_other (cur v : GoString) (e : UInt8) (h : e ≠ 10) :
    reNewLineSplit cur (13 :: 10 :: e :: v) = cur :: reNewLineSplit [] (e :: v) := by
  rw [reNewLineSplit.eq_def]; simp [h]

theorem split_cr_other (cur u : GoString) (d : UInt8) (h : d ≠ 10) :
    reNewLineSplit cur (13 :: d :: u) = reNewLineSplit (cur ++ [13]) (d :: u) := by
  rw [reNewLineSplit.eq_def]; simp [h]

theorem split_other (cur t : GoString) (c : UInt8) (h10 : c ≠ 10) (h13 : c ≠ 13) :
    reNewLineSplit cur (c :: t) = reNewLineSplit (cur ++ [c]) t := by
  rw [reNewLineSplit.eq_def]; simp [h10, h13]

theorem reNewLineSplit_ne_nil : ∀ (n : Nat) (s : GoString), s.length ≤ n → ∀ cur : GoString,
    reNewLineSplit cur s ≠ [] := by
  intro n
  induction n with
  | zero =>
    intro s hs cur
    have : s = [] := List.length_eq_zero.mp (Nat.le_zero.mp hs)
    subst this
    simp [split_nil]
  | succ n ih =>
    intro s hs cur
    match s, hs with
    | [], _ => simp [split_nil]
    | c :: t, hs =>
      have ht : t.length ≤ n := by simpa using hs
      by_cases h10 : c = 10
      · subst h10
        match t with
        | [] => simp [split_lf]
        | d :: u =>
          by_cases hd : d = 10
          · subst hd; simp [split_lf_lf]
          · simp [split_lf_other _ _ _ hd]
      · by_cases h13 : c = 13
        · subst h13
          match t, ht with
          | [], _ => simp [split_cr]
          | [d], ht =>
            by_cases hd : d = 10
            · subst hd; simp [split_cr_lf]
            · rw [split_cr_other _ _ _ hd]; exact ih _ ht _
          | d :: e :: v, ht =>
            by_cases hd : d = 10
            · subst hd
              by_cases he : e = 10
              · subst he; simp [split_cr_lf_lf]
              · simp [split_cr_lf_other _ _ _ he]
            · rw [split_cr_other _ _ _ hd]; exact ih _ ht _
        · rw [split_other _ _ _ h10 h13]; exact ih _ ht _

theorem split_ne_nil (cur s : GoString) : reNewLineSplit cur s ≠ [] :=
  reNewLineSplit_ne_nil s.length s le_rfl cur

theorem getLastD_irrel {α : Type} (l : List α) (h : l ≠ []) (d e : α) :
    l.getLastD d = l.getLastD e := by
  cases l with
  | nil => exact absurd rfl h
  | cons a t => rw [List.getLastD_cons, List.getLastD_cons]

theorem getLastD_cons_split (x cur s : GoString) :
    (x :: reNewLineSplit cur s).getLastD [] = (reNewLineSplit cur s).getLastD [] := by
  rw [List.getLastD_cons]
  exact getLastD_irrel _ (split_ne_nil _ _) _ _

theorem dropLast_cons_split (x cur s : GoString) :
    (x :: reNewLineSplit cur s).dropLast = x :: (reNewLineSplit cur s).dropLast :=
  List.dropLast_cons_of_ne_nil (split_ne_nil _ _)

theorem nonEmptyFrag_nil : nonEmptyFrag [] = false := rfl

theorem linesLF_lf (cur t : GoString) : linesLF cur (10 :: t) = stripCR cur :: linesLF [] t := by
  simp [linesLF]

theorem linesLF_other (cur t : GoString) (c : UInt8) (h : c ≠ 10) :
    linesLF cur (c :: t) = linesLF (cur ++ [c]) t := by
  simp [linesLF, h]

theorem restLF_lf (cur t : GoString) : restLF cur (10 :: t) = restLF [] t := by
  simp [restLF]

theorem restLF_other (cur t : GoString) (c : UInt8) (h : c ≠ 10) :
    restLF cur (c :: t) = restLF (cur ++ [c]) t := by
  simp [restLF, h]

theorem filter_nil_cons (l : List GoString) :
    List.filter nonEmptyFrag ([] :: l) = List.filter nonEmptyFrag l := by
  simp [List.filter_cons, nonEmptyFrag_nil]

theorem filter_cons_congr (x : GoString) (l1 l2 : List GoString)
    (h : List.filter nonEmptyFrag l1 = List.filter nonEmptyFrag l2) :
    List.filter nonEmptyFrag (x :: l1) = List.filter nonEmptyFrag (x :: l2) := by
  simp only [List.filter_cons, h]

theorem cr_ne_lf : (13 : UInt8) ≠ 10 := by decide

theorem reNewLineSplit_lines : ∀ (n : Nat) (s : GoString), s.length ≤ n → ∀ cur : GoString,
    ¬ (cur.getLast? = some 13 ∧ s.head? = some 10) →
    ((reNewLineSplit cur s).dropLast.filter nonEmptyFrag = (linesLF cur s).filter nonEmptyFrag ∧
     (reNewLineSplit cur s).getLastD [] = restLF cur s) := by
  intro n
  induction n with
  | zero =>
    intro s hs cur _
    have : s = [] := List.length_eq_zero.mp (Nat.le_zero.mp hs)
    subst this
    exact ⟨rfl, rfl⟩
  | succ n ih =>
    intro s hs cur hinv
    match s, hs, hinv with
    | [], _, _ => exact ⟨rfl, rfl⟩
    | c :: t, hs, hinv =>
      have ht : t.length ≤ n := by simpa using hs
      by_cases h10 : c = 10
      · subst h10
        have hcr : cur.getLast? ≠ some 13 := fun h => hinv ⟨h, rfl⟩
        match t, ht with
        | [], _ =>
          rw [split_lf, linesLF_lf, restLF_lf, stripCR_of_not_cr _ hcr]
          exact ⟨rfl, rfl⟩
        | d :: u, ht =>
          by_cases hd : d = 10
          · subst hd
            have hu : u.length ≤ n := by simp at ht; omega
            obtain ⟨h1, h2⟩ := ih u hu [] (by simp)
            rw [split_lf_lf, dropLast_cons_split, getLastD_cons_split, linesLF_lf, linesLF_lf,
              restLF_lf, restLF_lf, stripCR_of_not_cr _ hcr]
            refine ⟨?_, h2⟩
            rw [show stripCR ([] : GoString) = [] from rfl]
            exact filter_cons_congr _ _ _ (h1.trans (filter_nil_cons _).symm)
          · obtain ⟨h1, h2⟩ := ih (d :: u) ht [] (by simp)
            rw [split_lf_other _ _ _ hd, dropLast_cons_split, getLastD_cons_split, linesLF_lf,
              restLF_lf, stripCR_of_not_cr _ hcr]
            refine ⟨?_, h2⟩
            exact filter_cons_congr _ _ _ h1
      · by_cases h13 : c = 13
        · subst h13
          rw [linesLF_other _ _ _ cr_ne_lf, restLF_other _ _ _ cr_ne_lf]
          match t, ht with
          | [], _ => exact ⟨rfl, rfl⟩
          | [d], ht =>
            by_cases hd : d = 10
            · subst hd
              rw [split_cr_lf, linesLF_lf, restLF_lf, stripCR_append_cr]
              exact ⟨rfl, rfl⟩
            · rw [split_cr_other _ _ _ hd]
              exact ih [d] ht (cur ++ [13]) (by simp [hd])
          | d :: e :: v, ht =>
            by_cases hd : d = 10
            · subst hd
              rw [linesLF_lf, restLF_lf, stripCR_append_cr]
              by_cases he : e = 10
              · subst he
                have hv : v.length ≤ n := by simp at ht; omega
                obtain ⟨h1, h2⟩ := ih v hv [] (by simp)
                rw [split_cr_lf_lf, dropLast_cons_split, getLastD_cons_split, linesLF_lf,
                  restLF_lf]
                refine ⟨?_, h2⟩
                rw [show stripCR ([] : GoString) = [] from rfl]
                exact filter_cons_congr _ _ _ (h1.trans (filter_nil_cons _).symm)
              · have hv : (e :: v).length ≤ n := by simp at ht ⊢; omega
                obtain ⟨h1, h2⟩ := ih (e :: v) hv [] (by simp)
                rw [split_cr_lf_other _ _ _ he, dropLast_cons_split, getLastD_cons_split]
                refine ⟨?_, h2⟩
                exact filter_cons_congr _ _ _ h1
            · rw [split_cr_other _ _ _ hd]
              exact ih (d :: e :: v) ht (cur ++ [13]) (by simp [hd])
        · rw [split_other _ _ _ h10 h13, linesLF_other _ _ _ h10, restLF_other _ _ _ h10]
          exact ih t ht (cur ++ [c]) (by simp [h13])

/-! ## `OnIncomingData` and its loop body -/

theorem processLine_setLatestData (b : BufferflowRepetier) (x l : GoString) :
    processLine (setLatestData b x) l = setLatestData (processLine b l) x := by
  simp only [processLine, setLatestData, LocalBufferWipe, ReleaseLock, SetPaused, GetPaused]
  split_ifs <;> rfl

theorem withoutEmptyLines_append (l1 l2 : List HubMsg) :
    withoutEmptyLines (l1 ++ l2) = withoutEmptyLines l1 ++ withoutEmptyLines l2 := by
  simp [withoutEmptyLines]

theorem withoutEmptyLines_idem (l : List HubMsg) :
    withoutEmptyLines (withoutEmptyLines l) = withoutEmptyLines l := by
  simp [withoutEmptyLines]

theorem processLine_dropEmptyLines (b : BufferflowRepetier) (l : GoString) :
    dropEmptyLines (processLine (dropEmptyLines b) l) = dropEmptyLines (processLine b l) := by
  simp only [processLine, dropEmptyLines, LocalBufferWipe, ReleaseLock, SetPaused, GetPaused]
  split_ifs <;> simp [withoutEmptyLines_append, withoutEmptyLines_idem]

theorem processLine_empty (b : BufferflowRepetier) :
    dropEmptyLines (processLine b []) = dropEmptyLines b := by
  have h1 : okMatch [] = false := by decide
  have h2 : errMatch [] = false := by decide
  have h3 : initlineMatch [] = false := by decide
  have h4 : rptMatch [] = false := by decide
  simp [processLine, h1, h2, h3, h4, dropEmptyLines, withoutEmptyLines_append]
  simp [withoutEmptyLines, isEmptyLineMsg, str]
  decide

theorem foldl_processLine_setLatestData (ls : List GoString) (b : BufferflowRepetier)
    (x : GoString) :
    ls.foldl processLine (setLatestData b x) = setLatestData (ls.foldl processLine b) x := by
  induction ls generalizing b with
  | nil => rfl
  | cons l ls ih => simp only [List.foldl_cons, processLine_setLatestData, ih]

theorem foldl_processLine_dropEmptyLines (ls : List GoString) (b : BufferflowRepetier) :
    dropEmptyLines (ls.foldl processLine (dropEmptyLines b))
      = dropEmptyLines (ls.foldl processLine b) := by
  induction ls generalizing b with
  | nil => simp [dropEmptyLines, withoutEmptyLines_idem]
  | cons l ls ih =>
    simp only [List.foldl_cons]
    rw [← ih (processLine (dropEmptyLines b) l), ← ih (processLine b l),
      processLine_dropEmptyLines]

theorem foldl_processLine_filter (ls : List GoString) (b : BufferflowRepetier) :
    dropEmptyLines (ls.foldl processLine b)
      = dropEmptyLines ((ls.filter nonEmptyFrag).foldl processLine b) := by
  induction ls generalizing b with
  | nil => rfl
  | cons l ls ih =>
    cases l with
    | nil =>
      rw [filter_nil_cons, List.foldl_cons, ← foldl_processLine_dropEmptyLines,
        processLine_empty, foldl_processLine_dropEmptyLines, ih]
    | cons c t =>
      have : nonEmptyFrag (c :: t) = true := rfl
      rw [List.filter_cons, if_pos this, List.foldl_cons, List.foldl_cons, ih]

theorem split_single : ∀ (n : Nat) (s : GoString), s.length ≤ n → ∀ cur : GoString,
    (reNewLineSplit cur s).length ≤ 1 → reNewLineSplit cur s = [cur ++ s] := by
  intro n
  induction n with
  | zero =>
    intro s hs cur _
    have : s = [] := List.length_eq_zero.mp (Nat.le_zero.mp hs)
    subst this
    simp [split_nil]
  | succ n ih =>
    intro s hs cur hlen
    have hcons : ∀ (x cur2 s2 : GoString), ¬ (x :: reNewLineSplit cur2 s2).length ≤ 1 := by
      intro x cur2 s2 h
      simp at h
      exact split_ne_nil _ _ h
    match s, hs, hlen with
    | [], _, _ => simp [split_nil]
    | c :: t, hs, hlen =>
      have ht : t.length ≤ n := by simpa using hs
      by_cases h10 : c = 10
      · subst h10
        match t with
        | [] => rw [split_lf] at hlen; simp at hlen
        | d :: u =>
          by_cases hd : d = 10
          · subst hd; rw [split_lf_lf] at hlen; exact absurd hlen (hcons _ _ _)
          · rw [split_lf_other _ _ _ hd] at hlen; exact absurd hlen (hcons _ _ _)
      · by_cases h13 : c = 13
        · subst h13
          match t, ht with
          | [], _ => simp [split_cr]
          | [d], ht =>
            by_cases hd : d = 10
            · subst hd; rw [split_cr_lf] at hlen; simp at hlen
            · rw [split_cr_other _ _ _ hd] at hlen ⊢
              rw [ih _ ht _ hlen]; simp
          | d :: e :: v, ht =>
            by_cases hd : d = 10
            · subst hd
              by_cases he : e = 10
              · subst he; rw [split_cr_lf_lf] at hlen; exact absurd hlen (hcons _ _ _)
              · rw [split_cr_lf_other _ _ _ he] at hlen; exact absurd hlen (hcons _ _ _)
            · rw [split_cr_other _ _ _ hd] at hlen ⊢
              rw [ih _ ht _ hlen]; simp
        · rw [split_other _ _ _ h10 h13] at hlen ⊢
          rw [ih _ ht _ hlen]; simp

/-- `OnIncomingData` without the case distinction: the complete lines are processed and the
last fragment is kept. -/
theorem OnIncomingData_eq (b : BufferflowRepetier) (data : GoString) :
    b.OnIncomingData data
      = setLatestData
          ((reNewLineSplit [] (b.LatestData ++ data)).dropLast.foldl processLine b)
          ((reNewLineSplit [] (b.LatestData ++ data)).getLastD []) := by
  unfold OnIncomingData
  simp only []
  split_ifs with h
  · have := foldl_processLine_setLatestData (reNewLineSplit [] (b.LatestData ++ data)).dropLast
      b (b.LatestData ++ data)
    simp only [setLatestData] at this ⊢
    rw [this]
  · have hs := split_single _ _ le_rfl [] (not_lt.mp h)
    rw [hs]
    simp [setLatestData]

theorem linesLF_append (x y : GoString) : ∀ cur : GoString,
    linesLF cur (x ++ y) = linesLF cur x ++ linesLF (restLF cur x) y := by
  induction x with
  | nil => intro cur; rfl
  | cons c t ih =>
    intro cur
    by_cases h : c = 10
    · subst h
      rw [List.cons_append, linesLF_lf, linesLF_lf, restLF_lf, ih, List.cons_append]
    · rw [List.cons_append, linesLF_other _ _ _ h, linesLF_other _ _ _ h,
        restLF_other _ _ _ h, ih]

theorem restLF_append (x y : GoString) : ∀ cur : GoString,
    restLF cur (x ++ y) = restLF (restLF cur x) y := by
  induction x with
  | nil => intro cur; rfl
  | cons c t ih =>
    intro cur
    by_cases h : c = 10
    · subst h
      rw [List.cons_append, restLF_lf, restLF_lf, ih]
    · rw [List.cons_append, restLF_other _ _ _ h, restLF_other _ _ _ h, ih]

theorem restLF_no_lf (s : GoString) : ∀ cur : GoString, (10 : UInt8) ∉ cur →
    (10 : UInt8) ∉ restLF cur s := by
  induction s with
  | nil => intro cur h; exact h
  | cons c t ih =>
    intro cur h
    by_cases hc : c = 10
    · subst hc; rw [restLF_lf]; exact ih [] (by simp)
    · rw [restLF_other _ _ _ hc]
      exact ih _ (by simp [h]; exact fun h' => hc h'.symm)

theorem linesLF_of_no_lf (a : GoString) : ∀ cur : GoString, (10 : UInt8) ∉ a →
    linesLF cur a = [] ∧ restLF cur a = cur ++ a := by
  induction a with
  | nil => intro cur _; exact ⟨rfl, by simp [restLF]⟩
  | cons c t ih =>
    intro cur h
    have hc : c ≠ 10 := fun hc => h (by simp [hc])
    have ht : (10 : UInt8) ∉ t := fun ht => h (by simp [ht])
    rw [linesLF_other _ _ _ hc, restLF_other _ _ _ hc]
    obtain ⟨h1, h2⟩ := ih (cur ++ [c]) ht
    exact ⟨h1, by rw [h2]; simp⟩

/-- The lines and the rest of `a ++ d`, for an accumulator `a` left by an earlier call. -/
theorem linesLF_acc (s d : GoString) :
    linesLF [] (restLF [] s ++ d) = linesLF (restLF [] s) d ∧
    restLF [] (restLF [] s ++ d) = restLF (restLF [] s) d := by
  obtain ⟨h1, h2⟩ := linesLF_of_no_lf (restLF [] s) [] (restLF_no_lf s [] (by simp))
  rw [linesLF_append, restLF_append, h1, h2]
  simp

theorem dropEmptyLines_setLatestData (b : BufferflowRepetier) (x : GoString) :
    dropEmptyLines (setLatestData b x) = setLatestData (dropEmptyLines b) x := rfl

theorem setLatestData_setLatestData (b : BufferflowRepetier) (x y : GoString) :
    setLatestData (setLatestData b x) y = setLatestData b y := rfl

/-- What `OnIncomingData` does, up to the messages of empty lines. -/
theorem OnIncomingData_dropEmptyLines (b : BufferflowRepetier) (data : GoString) :
    dropEmptyLines (b.OnIncomingData data)
      = setLatestData (dropEmptyLines
          (((linesLF [] (b.LatestData ++ data)).filter nonEmptyFrag).foldl processLine b))
          (restLF [] (b.LatestData ++ data)) := by
  obtain ⟨h1, h2⟩ := reNewLineSplit_lines _ (b.LatestData ++ data) le_rfl [] (by simp)
  rw [OnIncomingData_eq, h2, ← h1, dropEmptyLines_setLatestData, foldl_processLine_filter]

theorem LatestData_OnIncomingData (b : BufferflowRepetier) (data : GoString) :
    (b.OnIncomingData data).LatestData = restLF [] (b.LatestData ++ data) := by
  show (dropEmptyLines (b.OnIncomingData data)).LatestData = _
  rw [OnIncomingData_dropEmptyLines]
  rfl

/-- `OnIncomingData` respects equality up to the messages of empty lines. -/
theorem OnIncomingData_congr (b1 b2 : BufferflowRepetier) (data : GoString)
    (h : dropEmptyLines b1 = dropEmptyLines b2) :
    dropEmptyLines (b1.OnIncomingData data) = dropEmptyLines (b2.OnIncomingData data) := by
  have hl : b1.LatestData = b2.LatestData := by
    show (dropEmptyLines b1).LatestData = (dropEmptyLines b2).LatestData
    rw [h]
  rw [OnIncomingData_dropEmptyLines, OnIncomingData_dropEmptyLines, hl,
    ← foldl_processLine_dropEmptyLines _ b1, ← foldl_processLine_dropEmptyLines _ b2, h]

/-- Two calls in a row are one call on the concatenation, up to the messages of empty
lines. -/
theorem OnIncomingData_two_chunks (b : BufferflowRepetier) (c e : GoString) :
    dropEmptyLines ((b.OnIncomingData c).OnIncomingData e)
      = dropEmptyLines (b.OnIncomingData (c ++ e)) := by
  obtain ⟨h1, h2⟩ := linesLF_acc (b.LatestData ++ c) e
  have hL : linesLF [] (b.LatestData ++ (c ++ e))
      = linesLF [] (b.LatestData ++ c) ++ linesLF (restLF [] (b.LatestData ++ c)) e := by
    rw [← List.append_assoc, linesLF_append]
  have hR : restLF [] (b.LatestData ++ (c ++ e))
      = restLF (restLF [] (b.LatestData ++ c)) e := by
    rw [← List.append_assoc, restLF_append]
  rw [OnIncomingData_dropEmptyLines (b.OnIncomingData c) e, LatestData_OnIncomingData, h1, h2,
    OnIncomingData_dropEmptyLines b (c ++ e), hL, hR, List.filter_append, List.foldl_append,
    ← foldl_processLine_dropEmptyLines _ (b.OnIncomingData c),
    OnIncomingData_dropEmptyLines b c, foldl_processLine_setLatestData,
    dropEmptyLines_setLatestData, setLatestData_setLatestData,
    foldl_processLine_dropEmptyLines]

theorem feed_chunks (cs : List GoString) : ∀ (b : BufferflowRepetier) (c : GoString),
    dropEmptyLines (feed b (c :: cs)) = dropEmptyLines (b.OnIncomingData (c ++ cs.flatten)) := by
  induction cs with
  | nil => intro b c; simp [feed]
  | cons d ds ih =>
    intro b c
    have h1 : feed b (c :: d :: ds) = feed (b.OnIncomingData c) (d :: ds) := rfl
    rw [h1, ih, OnIncomingData_two_chunks]
    simp

/-! ## C1: feeding a stream in chunks -/

theorem fields_of_dropEmptyLines_eq (x y : BufferflowRepetier)
    (h : dropEmptyLines x = dropEmptyLines y) :
    x.q = y.q ∧ x.Paused = y.Paused ∧ x.LastStatus = y.LastStatus ∧ x.version = y.version ∧
    x.LatestData = y.LatestData ∧ x.sem = y.sem ∧ x.parent_serport = y.parent_serport ∧
    withoutEmptyLines x.broadcastSys = withoutEmptyLines y.broadcastSys := by
  have h1 := congrArg (fun z : BufferflowRepetier => z.q) h
  have h2 := congrArg (fun z : BufferflowRepetier => z.Paused) h
  have h3 := congrArg (fun z : BufferflowRepetier => z.LastStatus) h
  have h4 := congrArg (fun z : BufferflowRepetier => z.version) h
  have h5 := congrArg (fun z : BufferflowRepetier => z.LatestData) h
  have h6 := congrArg (fun z : BufferflowRepetier => z.sem) h
  have h7 := congrArg (fun z : BufferflowRepetier => z.parent_serport) h
  have h8 := congrArg (fun z : BufferflowRepetier => z.broadcastSys) h
  exact ⟨h1, h2, h3, h4, h5, h6, h7, h8⟩

/-- C1 (as stated, refuted): from the same state with an empty accumulator, the stream
"a\n\nb" fed in one call yields one per-line message, while the same stream cut as
"a\n", "\nb" yields two: the second line feed, alone at the start of the second chunk, is a
line terminator of its own and an empty line is forwarded. -/
theorem C1_chunking_is_observable :
    (mkState 10 [] false).LatestData = [] ∧
    [str "a\n", str "\nb"].flatten = str "a\n\nb" ∧
    ((mkState 10 [] false).OnIncomingData (str "a\n\nb")).broadcastSys
      = [HubMsg.perLine ⟨str "COM1", str "a\n"⟩] ∧
    (feed (mkState 10 [] false) [str "a\n", str "\nb"]).broadcastSys
      = [HubMsg.perLine ⟨str "COM1", str "a\n"⟩, HubMsg.perLine ⟨str "COM1", str "\n"⟩] := by
  decide

/-- C1 (amended): for every state and every way of cutting a stream into one or more
chunks, feeding the chunks one after another leaves the same queue, paused flag, last
status, version, accumulator, pending releases and transport state as feeding the whole
stream in one call, and the same sequence of hub messages once the per-line messages of
empty lines (text "\n") are left out. -/
theorem C1_chunk_invariance_up_to_empty_lines (b : BufferflowRepetier)
    (chunks : List GoString) (hk : chunks ≠ []) :
    (feed b chunks).q = (b.OnIncomingData chunks.flatten).q ∧
    (feed b chunks).Paused = (b.OnIncomingData chunks.flatten).Paused ∧
    (feed b chunks).LastStatus = (b.OnIncomingData chunks.flatten).LastStatus ∧
    (feed b chunks).version = (b.OnIncomingData chunks.flatten).version ∧
    (feed b chunks).LatestData = (b.OnIncomingData chunks.flatten).LatestData ∧
    (feed b chunks).sem = (b.OnIncomingData chunks.flatten).sem ∧
    (feed b chunks).parent_serport = (b.OnIncomingData chunks.flatten).parent_serport ∧
    withoutEmptyLines (feed b chunks).broadcastSys
      = withoutEmptyLines (b.OnIncomingData chunks.flatten).broadcastSys := by
  match chunks, hk with
  | c :: cs, _ =>
    have h := feed_chunks cs b c
    have hf : (c :: cs).flatten = c ++ cs.flatten := rfl
    rw [hf]
    exact fields_of_dropEmptyLines_eq _ _ h

/-- C1 (amended), an instance: three queued units, the gate paused, and the stream
"ok\r\n\nerror: x\n\nok" cut inside the line terminators. -/
theorem C1_chunk_invariance_up_to_empty_lines_witness :
    [str "ok\r", str "\n", str "\nerror: x\n", str "\nok"] ≠ [] ∧
    (feed (mkState 10 threeUnits true)
        [str "ok\r", str "\n", str "\nerror: x\n", str "\nok"]).q
      = ((mkState 10 threeUnits true).OnIncomingData
          [str "ok\r", str "\n", str "\nerror: x\n", str "\nok"].flatten).q ∧
    withoutEmptyLines (feed (mkState 10 threeUnits true)
        [str "ok\r", str "\n", str "\nerror: x\n", str "\nok"]).broadcastSys
      = withoutEmptyLines ((mkState 10 threeUnits true).OnIncomingData
          [str "ok\r", str "\n", str "\nerror: x\n", str "\nok"].flatten).broadcastSys :=
  ⟨by decide,
   (C1_chunk_invariance_up_to_empty_lines (mkState 10 threeUnits true)
      [str "ok\r", str "\n", str "\nerror: x\n", str "\nok"] (by decide)).1,
   (C1_chunk_invariance_up_to_empty_lines (mkState 10 threeUnits true)
      [str "ok\r", str "\n", str "\nerror: x\n", str "\nok"] (by decide)).2.2.2.2.2.2.2⟩

/-! ## C5: completions in order -/

theorem okLines_succ (n : Nat) : okLines (n + 1) = 111 :: 107 :: 10 :: okLines n := by
  simp [okLines, List.replicate_succ]
  rfl

theorem split_okLines (n : Nat) :
    reNewLineSplit [] (okLines n) = List.replicate n (str "ok") ++ [[]] := by
  induction n with
  | zero => rfl
  | succ n ih =>
    rw [okLines_succ, split_other _ _ _ (by decide) (by decide),
      split_other _ _ _ (by decide) (by decide)]
    cases n with
    | zero => rfl
    | succ m =>
      rw [okLines_succ] at ih ⊢
      rw [split_lf_other _ _ _ (by decide), ih]
      rfl

theorem Queue.Poll_cons (q : Queue) (u : GoString × GoString) (rest : List (GoString × GoString))
    (h : q.items = u :: rest) : q.Poll = (u, ⟨rest⟩) := by
  simp [Queue.Poll, h]

theorem Queue.Len_pos_of_cons (q : Queue) (u : GoString × GoString)
    (rest : List (GoString × GoString)) (h : q.items = u :: rest) : q.Len > 0 := by
  simp [Queue.Len, h]

theorem okMatch_ok : okMatch (str "ok") = true := by decide

theorem processLine_ok (b : BufferflowRepetier) (u : GoString × GoString)
    (rest : List (GoString × GoString)) (h : b.q.items = u :: rest) :
    (processLine b (str "ok")).q = ⟨rest⟩ ∧
    (processLine b (str "ok")).Port = b.Port ∧
    (processLine b (str "ok")).broadcastSys = b.broadcastSys ++
      [HubMsg.cmdComplete ⟨str "Complete", u.2, b.Port, Queue.LenOfCmds ⟨rest⟩, u.1⟩,
       HubMsg.perLine ⟨b.Port, str "ok\n"⟩] := by
  have hlen := Queue.Len_pos_of_cons _ _ _ h
  have hpoll := Queue.Poll_cons _ _ _ h
  have hcat : str "ok" ++ str "\n" = str "ok\n" := by decide
  simp only [processLine, okMatch_ok, Bool.true_or, if_true, hlen, hpoll, GetPaused, SetPaused,
    hcat]
  split_ifs <;> simp

theorem okMsgs_succ (port : GoString) (u : GoString × GoString)
    (rest : List (GoString × GoString)) (n : Nat) :
    okMsgs port (u :: rest) (n + 1)
      = [HubMsg.cmdComplete ⟨str "Complete", u.2, port, Queue.LenOfCmds ⟨rest⟩, u.1⟩,
         HubMsg.perLine ⟨port, str "ok\n"⟩] ++ okMsgs port rest n := by
  simp [okMsgs, List.range_succ_eq_map, List.flatMap_map]

theorem foldl_processLine_ok (n : Nat) : ∀ b : BufferflowRepetier, n ≤ b.q.items.length →
    ((List.replicate n (str "ok")).foldl processLine b).q.items = b.q.items.drop n ∧
    ((List.replicate n (str "ok")).foldl processLine b).broadcastSys
      = b.broadcastSys ++ okMsgs b.Port b.q.items n := by
  induction n with
  | zero => intro b _; simp [okMsgs]
  | succ n ih =>
    intro b hb
    match hq : b.q.items, hb with
    | [], hb => simp at hb
    | u :: rest, hb =>
      obtain ⟨h1, h2, h3⟩ := processLine_ok b u rest hq
      have hn : n ≤ (processLine b (str "ok")).q.items.length := by
        rw [h1]; simpa using hb
      obtain ⟨i1, i2⟩ := ih (processLine b (str "ok")) hn
      rw [List.replicate_succ, List.foldl_cons, i1, i2, h1, h2, h3, okMsgs_succ]
      simp

/-- C5: with an empty accumulator and at least `n` units queued, `OnIncomingData` on `n`
copies of "ok\n" polls the `n` oldest units in order and leaves the others queued in
their order; it sends, for `i = 0, …, n-1` in turn, a "Complete" message carrying the id
and the text of the `i`-th unit and as `BufSize` the byte total of the units behind it,
followed by the per-line message of the "ok" line; the accumulator is empty again. -/
theorem C5_in_order_completion (b : BufferflowRepetier) (n : Nat)
    (hacc : b.LatestData = []) (hm : n ≤ b.q.items.length) :
    (b.OnIncomingData (okLines n)).q.items = b.q.items.drop n ∧
    (b.OnIncomingData (okLines n)).broadcastSys = b.broadcastSys ++
      (List.range n).flatMap (fun i =>
        [HubMsg.cmdComplete ⟨str "Complete", (b.q.items.getD i ([], [])).2, b.Port,
            Queue.LenOfCmds ⟨b.q.items.drop (i + 1)⟩, (b.q.items.getD i ([], [])).1⟩,
         HubMsg.perLine ⟨b.Port, str "ok\n"⟩]) ∧
    (b.OnIncomingData (okLines n)).LatestData = [] := by
  rw [OnIncomingData_eq, hacc, List.nil_append, split_okLines, List.dropLast_concat]
  obtain ⟨h1, h2⟩ := foldl_processLine_ok n b hm
  refine ⟨h1, h2, ?_⟩
  show (List.replicate n (str "ok") ++ [[]]).getLastD [] = []
  exact List.getLastD_concat _ _ _

/-- C5, the scenario: the data "ok\nok\n" with the units a, b, c queued gives two "Complete"
messages, for a then b, and leaves c queued. -/
theorem C5_in_order_completion_witness :
    ((mkState 10 threeUnits false).OnIncomingData (str "ok\nok\n")).q.items
      = [(str "G1X3", str "c")] ∧
    ((mkState 10 threeUnits false).OnIncomingData (str "ok\nok\n")).broadcastSys
      = [HubMsg.cmdComplete ⟨str "Complete", str "a", str "COM1", 8, str "G1X1"⟩,
         HubMsg.perLine ⟨str "COM1", str "ok\n"⟩,
         HubMsg.cmdComplete ⟨str "Complete", str "b", str "COM1", 4, str "G1X2"⟩,
         HubMsg.perLine ⟨str "COM1", str "ok\n"⟩] := by
  have h := C5_in_order_completion (mkState 10 threeUnits false) 2 rfl (by decide)
  exact ⟨h.1, h.2.1⟩

/-! ## C6: resume on poll -/

theorem processLine_atMostOneResume (x : BufferflowRepetier) (l : GoString)
    (h : isBannerLine l = false) : atMostOneResume x (processLine x l) := by
  unfold atMostOneResume
  simp only [isBannerLine] at h
  simp only [processLine, GetPaused, SetPaused, LocalBufferWipe, ReleaseLock]
  split_ifs <;> simp_all

theorem foldl_atMostOneResume (ls : List GoString) : ∀ x : BufferflowRepetier,
    (∀ l ∈ ls, isBannerLine l = false) → atMostOneResume x (ls.foldl processLine x) := by
  induction ls with
  | nil => intro x _; exact Or.inl ⟨rfl, rfl⟩
  | cons l ls ih =>
    intro x h
    have h1 := processLine_atMostOneResume x l (h l (by simp))
    have h2 := ih (processLine x l) (fun m hm => h m (by simp [hm]))
    rw [List.foldl_cons]
    rcases h1 with ⟨a1, a2⟩ | ⟨a1, a2, a3⟩
    · rcases h2 with ⟨c1, c2⟩ | ⟨c1, c2, c3⟩
      · exact Or.inl ⟨c1.trans a1, c2.trans a2⟩
      · exact Or.inr ⟨a2 ▸ c1, c2, by rw [c3, a1]⟩
    · rcases h2 with ⟨c1, c2⟩ | ⟨c1, c2, c3⟩
      · exact Or.inr ⟨a1, c2.trans a2, c1.trans a3⟩
      · rw [a2] at c1; exact absurd c1 (by simp)

/-- C6 (as stated, refuted): one call `OnIncomingData("ok\nok\n")` that issues two RESUME
releases and has no banner line.  Capacity 10, three units of four bytes queued, the gate
paused and the sender waiting.  The first line "ok" polls a unit (total 8), opens the gate
and issues a release 1.  The sender, released, submits its next command of four bytes
with `BlockUntilReady`: the total is 12, the gate is paused again and the sender waits.
The second line "ok" of the same call polls a unit (total 8), opens the gate and issues a
second release 1. -/
theorem C6_second_resume_in_one_call :
    reNewLineSplit [] (str "ok\nok\n") = [str "ok", str "ok", []] ∧
    isBannerLine (str "ok") = false ∧
    (mkState 10 threeUnits true).Paused = true ∧
    traceAfterFirstOk.Paused = false ∧
    traceAfterFirstOk.sem = (mkState 10 threeUnits true).sem ++ [1] ∧
    (traceAfterFirstOk.BlockUntilReady (str "G1X4") (str "d") 1).waited = true ∧
    traceAfterSender.q.LenOfCmds = 12 ∧
    traceAfterSender.Paused = true ∧
    traceAfterSecondOk.Paused = false ∧
    traceAfterSecondOk.sem = traceAfterSender.sem ++ [1] := by
  decide

/-- C6 (amended): when the loop body of `OnIncomingData` processes a completion or error line
with a non-empty queue, the oldest unit is polled; if afterwards the byte total is below
`BufferMax` and the gate is paused, the gate is opened and exactly one release, of kind 1
(RESUME), is issued; if the total is at least `BufferMax` or the gate is not paused, the
flag is unchanged and nothing is released.  Every line that is not a banner line issues
at most one release, of kind 1, and only when it finds the gate paused; so lines that are
processed back to back, with no other method of the controller run in between, issue at
most one RESUME in all. -/
theorem C6_resume_on_poll (b : BufferflowRepetier) (element : GoString)
    (hline : okMatch element = true ∨ errMatch element = true) (hq : b.q.Len > 0) :
    (processLine b element).q = b.q.Poll.2 ∧
    ((b.q.Poll.2.LenOfCmds < b.BufferMax ∧ b.Paused = true) →
      (processLine b element).Paused = false ∧ (processLine b element).sem = b.sem ++ [1]) ∧
    ((b.q.Poll.2.LenOfCmds ≥ b.BufferMax ∨ b.Paused = false) →
      (processLine b element).Paused = b.Paused ∧ (processLine b element).sem = b.sem) ∧
    (∀ (x : BufferflowRepetier) (l : GoString), isBannerLine l = false →
      ((processLine x l).sem = x.sem ∧ (processLine x l).Paused = x.Paused) ∨
      (x.Paused = true ∧ (processLine x l).Paused = false ∧
        (processLine x l).sem = x.sem ++ [1])) ∧
    (∀ (x : BufferflowRepetier) (ls : List GoString), (∀ l ∈ ls, isBannerLine l = false) →
      ((ls.foldl processLine x).sem = x.sem ∧ (ls.foldl processLine x).Paused = x.Paused) ∨
      (x.Paused = true ∧ (ls.foldl processLine x).Paused = false ∧
        (ls.foldl processLine x).sem = x.sem ++ [1])) := by
  refine ⟨?_, ?_, ?_, ?_, ?_⟩
  · simp only [processLine, GetPaused, SetPaused, LocalBufferWipe, ReleaseLock]
    rcases hline with h | h <;> split_ifs <;> simp_all
  · rintro ⟨h1, h2⟩
    simp only [processLine, GetPaused, SetPaused, LocalBufferWipe, ReleaseLock]
    rcases hline with h | h <;> split_ifs <;> simp_all
  · intro h1
    have h1' : ¬ (b.q.Poll.2.LenOfCmds < b.BufferMax ∧ b.Paused = true) := by
      rcases h1 with h | h
      · exact fun hc => absurd hc.1 (not_lt.mpr h)
      · simp [h]
    simp only [processLine, GetPaused, SetPaused, LocalBufferWipe, ReleaseLock]
    rcases hline with h | h <;> split_ifs <;> simp_all
  · intro x l hl
    exact processLine_atMostOneResume x l hl
  · intro x ls hls
    exact foldl_atMostOneResume ls x hls

/-! ## C10: the firmware banner -/

theorem BreakApartCommands_init (b : BufferflowRepetier) :
    b.BreakApartCommands (str "*init*")
      = ({ b with broadcastSys := b.broadcastSys ++
            [HubMsg.perLine ⟨b.Port, b.version ++ str "\n"⟩] }, []) := by
  have hs : stringsSplitLF [] (str "*init*") = [str "*init*"] := by decide
  have hi : removeSpaces (stripSemicolon false (stripParens false (str "*init*")))
      = str "*init*" := by decide
  simp only [BreakApartCommands, hs, List.foldl_cons, List.foldl_nil, breakItem, hi, if_true]

/-- C10: for a line `L` that contains "Repetier", is not exactly "ok" and does not start with
"error", after the loop body of `OnIncomingData` has processed `L` the queue is empty, the
gate is open, one release 2 (WIPE) has been issued, a `WipedQueue` message and then the
per-line message of `L` have been sent, and the version is `L`; `BreakApartCommands` on
"*init*" then returns the empty list and sends exactly one per-line message, with the
text `L` followed by a line feed. -/
theorem C10_banner_wipes_and_is_replayed (b : BufferflowRepetier) (L : GoString)
    (hinit : initlineMatch L = true) (hok : okMatch L = false) (herr : errMatch L = false) :
    (processLine b L).q.items = [] ∧
    (processLine b L).q.Len = 0 ∧
    (processLine b L).q.LenOfCmds = 0 ∧
    (processLine b L).Paused = false ∧
    (processLine b L).sem = b.sem ++ [2] ∧
    (processLine b L).broadcastSys = b.broadcastSys ++
      [HubMsg.wipedQueue (drainSendBuffered b.parent_serport).itemsInBuffer
          b.parent_serport.portConfName,
       HubMsg.perLine ⟨b.Port, L ++ str "\n"⟩] ∧
    (processLine b L).version = L ∧
    ((processLine b L).BreakApartCommands (str "*init*")).2 = [] ∧
    ((processLine b L).BreakApartCommands (str "*init*")).1.broadcastSys
      = (processLine b L).broadcastSys ++ [HubMsg.perLine ⟨b.Port, L ++ str "\n"⟩] := by
  rw [BreakApartCommands_init]
  simp [processLine, hinit, hok, herr, LocalBufferWipe, ReleaseLock, SetPaused, GetPaused,
    Queue.Delete, Queue.Len, Queue.LenOfCmds, drainSendBuffered]

/-- C10, an instance: the banner "start Repetier_0.92" with three units queued and the gate
paused. -/
theorem C10_banner_wipes_and_is_replayed_witness :
    initlineMatch (str "start Repetier_0.92") = true ∧
    ((mkState 10 threeUnits true).OnIncomingData (str "start Repetier_0.92\n")).q.items = [] ∧
    ((mkState 10 threeUnits true).OnIncomingData (str "start Repetier_0.92\n")).sem = [2] ∧
    (processLine (mkState 10 threeUnits true) (str "start Repetier_0.92")).version
      = str "start Repetier_0.92" ∧
    (processLine (mkState 10 threeUnits true) (str "start Repetier_0.92")).Paused = false := by
  have h := C10_banner_wipes_and_is_replayed (mkState 10 threeUnits true)
    (str "start Repetier_0.92") (by decide) (by decide) (by decide)
  exact ⟨by decide, by decide, by decide, h.2.2.2.2.2.2.1, h.2.2.2.1⟩

/-! ## C7, C8: `BreakApartCommands` -/

theorem breakItem_snd (st : BufferflowRepetier × List GoString) (item0 : GoString) :
    (breakItem st item0).2 = st.2 ++ (itemOutput item0).toList := by
  have e1 : str "M114" ≠ [] := by decide
  have e2 : str "M114" ≠ str "*init*" := by decide
  have e3 : str "M114" ≠ str "*status*" := by decide
  have e4 : str "M114" ≠ str "%" := by decide
  have e5 : str "*init*" ≠ [] := by decide
  have e0 : str "" = [] := by decide
  simp only [breakItem, itemOutput, stripItem, e0]
  split_ifs <;> simp_all

theorem foldl_breakItem_snd (ls : List GoString) :
    ∀ st : BufferflowRepetier × List GoString,
    (ls.foldl breakItem st).2 = st.2 ++ ls.filterMap itemOutput := by
  induction ls with
  | nil => intro st; simp
  | cons l ls ih =>
    intro st
    rw [List.foldl_cons, ih, breakItem_snd]
    cases h : itemOutput l <;> simp [List.filterMap_cons, h]

theorem BreakApartCommands_snd (b : BufferflowRepetier) (cmd : GoString) :
    (b.BreakApartCommands cmd).2 = (stringsSplitLF [] cmd).filterMap itemOutput := by
  simp [BreakApartCommands, foldl_breakItem_snd]

theorem stringsSplitLF_eq_splitOn (s : GoString) : ∀ cur : GoString,
    stringsSplitLF cur s = (s.splitOn 10).modifyHead (fun l => cur ++ l) := by
  induction s with
  | nil => intro cur; simp [stringsSplitLF, List.splitOn]
  | cons c t ih =>
    intro cur
    by_cases h : c = 10
    · subst h
      simp [stringsSplitLF, List.splitOn, List.splitOnP_cons, ih]
      cases List.splitOnP (fun x => x == 10) t <;> rfl
    · have hb : (c == 10) = false := by simpa using h
      simp only [stringsSplitLF, List.splitOn, List.splitOnP_cons, h, hb, if_false, ih]
      cases hsp : List.splitOnP (fun x => x == 10) t <;>
        simp [List.splitOn, hsp]

theorem stringsSplitLF_no_lf (s : GoString) : ∀ cur : GoString, (10 : UInt8) ∉ cur →
    ∀ l ∈ stringsSplitLF cur s, (10 : UInt8) ∉ l := by
  induction s with
  | nil => intro cur h l hl; simp [stringsSplitLF] at hl; subst hl; exact h
  | cons c t ih =>
    intro cur h l hl
    by_cases hc : c = 10
    · subst hc
      simp only [stringsSplitLF, if_true, List.mem_cons] at hl
      rcases hl with hl | hl
      · subst hl; exact h
      · exact ih [] (by simp) l hl
    · simp only [stringsSplitLF, hc, if_false] at hl
      exact ih (cur ++ [c]) (by simp [h]; exact fun h' => hc h'.symm) l hl

theorem mem_of_mem_stripParens (l : GoString) : ∀ (i : Bool) (x : UInt8),
    x ∈ stripParens i l → x ∈ l := by
  induction l with
  | nil => intro i x h; simp [stripParens] at h
  | cons c t ih =>
    intro i x h
    simp only [stripParens] at h
    split_ifs at h
    · exact List.mem_cons_of_mem _ (ih _ _ h)
    · exact List.mem_cons_of_mem _ (ih _ _ h)
    · exact List.mem_cons_of_mem _ (ih _ _ h)
    · rcases List.mem_cons.mp h with h | h
      · subst h; simp
      · exact List.mem_cons_of_mem _ (ih _ _ h)

theorem stripSemicolon_of_no_lf (l : GoString) : (10 : UInt8) ∉ l →
    stripSemicolon true l = [] ∧
    stripSemicolon false l = l.takeWhile (fun c => c != 59) := by
  induction l with
  | nil => intro _; simp [stripSemicolon]
  | cons c t ih =>
    intro h
    have hc : c ≠ 10 := fun hc => h (by simp [hc])
    obtain ⟨h1, h2⟩ := ih (fun ht => h (by simp [ht]))
    refine ⟨by simp [stripSemicolon, hc, h1], ?_⟩
    by_cases h59 : c = 59
    · subst h59; simp [stripSemicolon, h1]
    · simp [stripSemicolon, hc, h59, h2, List.takeWhile_cons]

theorem closesParen_mem (s : GoString) (h : closesParen s = true) : (41 : UInt8) ∈ s := by
  induction s with
  | nil => simp [closesParen] at h
  | cons c t ih =>
    simp only [closesParen] at h
    split_ifs at h with h1 h2
    · simp [h1]
    · exact List.mem_cons_of_mem _ (ih h)

theorem closesParen_of_mem (a : GoString) (h10 : (10 : UInt8) ∉ a) (h : (41 : UInt8) ∈ a) :
    closesParen a = true := by
  induction a with
  | nil => simp at h
  | cons d u ih =>
    simp only [closesParen]
    split_ifs with a1 a2
    · rfl
    · exact absurd (by simp [a2]) h10
    · have : (41 : UInt8) ∈ u := by
        rcases List.mem_cons.mp h with e | e
        · exact absurd e.symm a1
        · exact e
      exact ih (fun hu => h10 (by simp [hu])) this

theorem stripParens_of_no_close (a : GoString) (h : (41 : UInt8) ∉ a) :
    stripParens false a = a := by
  induction a with
  | nil => rfl
  | cons c t ih =>
    have ht : (41 : UInt8) ∉ t := fun hm => h (by simp [hm])
    have hc : ¬ ((decide (c = 40) && closesParen t) = true) := by
      intro hc
      simp only [Bool.and_eq_true, decide_eq_true_eq] at hc
      exact ht (closesParen_mem _ hc.2)
    simp only [stripParens]
    rw [if_neg (by simp), if_neg hc, ih ht]

theorem stripParens_of_no_open (p r : GoString) (h : ∀ c ∈ p, c ≠ 40) :
    stripParens false (p ++ r) = p ++ stripParens false r := by
  induction p with
  | nil => rfl
  | cons c t ih =>
    have hc : c ≠ 40 := h c (by simp)
    have e : stripParens false (c :: (t ++ r)) = c :: stripParens false (t ++ r) := by
      simp only [stripParens]
      rw [if_neg (by simp), if_neg (by simp [hc])]
    rw [List.cons_append, e, ih (fun x hx => h x (by simp [hx])), List.cons_append]

theorem stripParens_inside (a : GoString) (h : (41 : UInt8) ∈ a) :
    stripParens true a = stripParens false ((a.dropWhile (fun c => c != 41)).drop 1) := by
  induction a with
  | nil => simp at h
  | cons c t ih =>
    by_cases hc : c = 41
    · subst hc
      simp [stripParens, List.dropWhile_cons]
    · have ht : (41 : UInt8) ∈ t := by
        rcases List.mem_cons.mp h with e | e
        · exact absurd e.symm hc
        · exact e
      have e1 : stripParens true (c :: t) = stripParens true t := by
        simp [stripParens, hc]
      have e2 : (c :: t).dropWhile (fun c => c != 41) = t.dropWhile (fun c => c != 41) := by
        simp [List.dropWhile_cons, hc]
      rw [e1, e2, ih ht]

/-- On a line, the removal of parenthesized comments of the source is the reference
removal. -/
theorem stripParens_eq_reference : ∀ (fuel : Nat) (s : GoString), s.length ≤ fuel →
    (10 : UInt8) ∉ s → stripParens false s = referenceRemoveComments fuel s := by
  intro fuel
  induction fuel with
  | zero =>
    intro s hs _
    have : s = [] := List.length_eq_zero.mp (Nat.le_zero.mp hs)
    subst this
    rfl
  | succ fuel ih =>
    intro s hs h10
    have hsplit : s.takeWhile (fun c => c != 40) ++ s.dropWhile (fun c => c != 40) = s :=
      List.takeWhile_append_dropWhile _ _
    have hp : ∀ c ∈ s.takeWhile (fun c => c != 40), c ≠ 40 := by
      intro c hc
      have := List.mem_takeWhile_imp hc
      simpa using this
    simp only [referenceRemoveComments]
    cases hd : s.dropWhile (fun c => c != 40) with
    | nil =>
      simp only []
      rw [hd, List.append_nil] at hsplit
      have := stripParens_of_no_open _ [] hp
      rw [List.append_nil, hsplit] at this
      rw [this]; simp [stripParens]
    | cons x a =>
      simp only []
      have hx : x = 40 := by
        have h1 : (s.dropWhile (fun c => c != 40)).head? = some x := by rw [hd]; rfl
        have h2 := List.head?_dropWhile_not (fun c : UInt8 => c != 40) s
        rw [h1] at h2
        simpa using h2
      subst hx
      rw [hd] at hsplit
      have ha10 : (10 : UInt8) ∉ a := by
        intro hm
        apply h10
        rw [← hsplit]
        simp [hm]
      have halen : a.length < s.length := by
        have := congrArg List.length hsplit
        simp at this
        omega
      have e0 : stripParens false s
          = s.takeWhile (fun c => c != 40) ++ stripParens false (40 :: a) := by
        conv_lhs => rw [← hsplit]
        exact stripParens_of_no_open _ _ hp
      split_ifs with h41
      · have hcl := closesParen_of_mem a ha10 h41
        have e1 : stripParens false (40 :: a) = stripParens true a := by
          simp [stripParens, hcl]
        have hsub : ∀ x ∈ (a.dropWhile (fun c => c != 41)).drop 1, x ∈ a :=
          fun x hx => (List.dropWhile_sublist _).subset ((List.drop_sublist _ _).subset hx)
        have hlen : ((a.dropWhile (fun c => c != 41)).drop 1).length ≤ fuel := by
          have h1 := (List.drop_sublist 1 (a.dropWhile (fun c => c != 41))).length_le
          have h2 := (List.dropWhile_sublist (fun c : UInt8 => c != 41) (l := a)).length_le
          omega
        rw [e0, e1, stripParens_inside a h41,
          ih _ hlen (fun hm => ha10 (hsub _ hm))]
      · have e1 : stripParens false (40 :: a) = 40 :: a := by
          have hcl : closesParen a = false :=
            Bool.eq_false_iff.mpr (fun hc => h41 (closesParen_mem _ hc))
          simp [stripParens, hcl, stripParens_of_no_close a h41]
        rw [e0, e1, hsplit]

theorem stripItem_eq_lists (l : GoString) (h : (10 : UInt8) ∉ l) :
    stripItem l
      = ((stripParens false l).takeWhile (fun c => c != 59)).filter (fun c => c != 32) := by
  have h1 : (10 : UInt8) ∉ stripParens false l := fun hm => h (mem_of_mem_stripParens _ _ _ hm)
  simp [stripItem, removeSpaces, (stripSemicolon_of_no_lf _ h1).2]

theorem stripItem_eq_referenceStrip (l : GoString) (h : (10 : UInt8) ∉ l) :
    stripItem l = referenceStrip l := by
  rw [stripItem_eq_lists l h, referenceStrip, stripParens_eq_reference _ l le_rfl h]

/-- The output of `BreakApartCommands` is the reference definition. -/
theorem BreakApartCommands_eq_reference (b : BufferflowRepetier) (s : GoString) :
    (b.BreakApartCommands s).2 = breakApartReference s := by
  rw [BreakApartCommands_snd, breakApartReference]
  have hsp : s.splitOn 10 = stringsSplitLF [] s := by
    rw [stringsSplitLF_eq_splitOn]
    cases s.splitOn 10 <;> simp
  rw [hsp]
  apply List.filterMap_congr
  intro l hl
  have := stripItem_eq_referenceStrip l (stringsSplitLF_no_lf s [] (by simp) l hl)
  simp only [itemOutput, this]
  split_ifs <;> simp_all

/-- C6, the scenario: capacity 10, three units of four bytes queued, the gate paused, and
the line "ok": the total drops to 8, the gate is opened, one release 1 is issued; the two
lines "ok", "ok" processed back to back issue that one release only. -/
theorem C6_resume_on_poll_witness :
    okMatch (str "ok") = true ∧
    (mkState 10 threeUnits true).q.Len > 0 ∧
    (processLine (mkState 10 threeUnits true) (str "ok")).q.LenOfCmds = 8 ∧
    (processLine (mkState 10 threeUnits true) (str "ok")).Paused = false ∧
    (processLine (mkState 10 threeUnits true) (str "ok")).sem = [1] ∧
    ([str "ok", str "ok"].foldl processLine (mkState 10 threeUnits true)).sem = [1] ∧
    ((([str "ok", str "ok"].foldl processLine (mkState 10 threeUnits true)).sem
          = (mkState 10 threeUnits true).sem ∧
        ([str "ok", str "ok"].foldl processLine (mkState 10 threeUnits true)).Paused
          = (mkState 10 threeUnits true).Paused) ∨
      ((mkState 10 threeUnits true).Paused = true ∧
        ([str "ok", str "ok"].foldl processLine (mkState 10 threeUnits true)).Paused = false ∧
        ([str "ok", str "ok"].foldl processLine (mkState 10 threeUnits true)).sem
          = (mkState 10 threeUnits true).sem ++ [1])) := by
  have h := C6_resume_on_poll (mkState 10 threeUnits true) (str "ok") (Or.inl (by decide))
    (by decide)
  exact ⟨by decide, by decide, by decide, (h.2.1 ⟨by decide, rfl⟩).1,
    (h.2.1 ⟨by decide, rfl⟩).2, by decide,
    h.2.2.2.2 (mkState 10 threeUnits true) [str "ok", str "ok"] (by decide)⟩

/-- C7: for every submission the list returned by `BreakApartCommands` is the reference
definition: in the order of the lines of the submission split on the line feed, one
element per line whose text after removing parenthesized comments, a comment from the
first semicolon to the end of the line, and spaces, is non-empty and none of "*init*",
"*status*", "%", namely the stripped text followed by a line feed.  For instance
"G1 X1\n;comment\nM114\n%" gives "G1X1\n", "M114\n", and
"G1 (to (x) y) X1\nM1(a)1(4 ;(z\n(c)%\n(*init*)" gives "G1y)X1\n", "M11(4\n": a comment ends
at the first `)` after its `(`, and a `(` with no `)` after it starts no comment. -/
theorem C7_BreakApartCommands_is_reference (b : BufferflowRepetier) (s : GoString) :
    (b.BreakApartCommands s).2 = breakApartReference s ∧
    (b.BreakApartCommands (str "G1 X1\n;comment\nM114\n%")).2 = [str "G1X1\n", str "M114\n"] ∧
    (b.BreakApartCommands (str "G1 (to (x) y) X1\nM1(a)1(4 ;(z\n(c)%\n(*init*)")).2
      = [str "G1y)X1\n", str "M11(4\n"] ∧
    breakApartReference (str "G1 (to (x) y) X1\nM1(a)1(4 ;(z\n(c)%\n(*init*)")
      = [str "G1y)X1\n", str "M11(4\n"] := by
  refine ⟨BreakApartCommands_eq_reference b s, ?_, ?_, by decide⟩
  · rw [BreakApartCommands_snd]
    decide
  · rw [BreakApartCommands_snd]
    decide

/-- C8 (the code at the failing inputs): only the space character is stripped, so a line
made of a tab, or of a carriage return, is not empty after stripping and is returned as a
command: "\t" gives the one command "\t\n", and "\r\n\r\n" gives "\r\n" twice. -/
theorem C8_whitespace_lines_are_emitted (b : BufferflowRepetier) :
    (b.BreakApartCommands (str "\t")).2 = [str "\t\n"] ∧
    (b.BreakApartCommands (str "\r\n\r\n")).2 = [str "\r\n", str "\r\n"] := by
  rw [BreakApartCommands_snd, BreakApartCommands_snd]
  decide

/-! ## C9: the directive predicates -/

theorem compile_skip_pattern :
    compileCharSet .start 0 [] (str "[!~\\M114]|(\u0018)") = .error .invalidEscape := rfl

/-- C9 (the code at the failing input): the pattern of
`SeeIfSpecificCommandsShouldSkipBuffer` holds the escape `\M`, which `regexp` rejects, so
`regexp.MatchString` returns `false` with an error for every command and the predicate is
never true; for "!", "~" and U+0018 the pause, unpause and wipe predicates are true and
the skip predicate is false. -/
theorem C9_skip_predicate_is_never_true (b : BufferflowRepetier) (cmd : GoString) :
    regexpMatchString (str "[!~\\M114]|(\u0018)") cmd = .error .invalidEscape ∧
    b.SeeIfSpecificCommandsShouldSkipBuffer cmd = false ∧
    (b.SeeIfSpecificCommandsShouldPauseBuffer (str "!") = true ∧
      b.SeeIfSpecificCommandsShouldSkipBuffer (str "!") = false) ∧
    (b.SeeIfSpecificCommandsShouldUnpauseBuffer (str "~") = true ∧
      b.SeeIfSpecificCommandsShouldSkipBuffer (str "~") = false) ∧
    (b.SeeIfSpecificCommandsShouldWipeBuffer (str "\u0018") = true ∧
      b.SeeIfSpecificCommandsShouldSkipBuffer (str "\u0018") = false) := by
  have h1 : regexpMatchString (str "[!~\\M114]|(\u0018)") cmd = .error .invalidEscape := by
    simp only [regexpMatchString, compile_skip_pattern]
  have h2 : ∀ c : GoString, b.SeeIfSpecificCommandsShouldSkipBuffer c = false := by
    intro c
    simp only [SeeIfSpecificCommandsShouldSkipBuffer, matchIgnoringError, regexpMatchString,
      compile_skip_pattern]
    rfl
  exact ⟨h1, h2 cmd, ⟨rfl, h2 _⟩, ⟨rfl, h2 _⟩, ⟨rfl, h2 _⟩⟩

/-! ## C11: status reports -/

theorem BreakApartCommands_status (b : BufferflowRepetier) :
    b.BreakApartCommands (str "*status*")
      = ({ b with broadcastSys := b.broadcastSys ++
            [HubMsg.perLine ⟨b.Port, b.LastStatus ++ str "\n"⟩] }, []) := by
  have hs : stringsSplitLF [] (str "*status*") = [str "*status*"] := by decide
  have hi : removeSpaces (stripSemicolon false (stripParens false (str "*status*")))
      = str "*status*" := by decide
  have hne : str "*status*" ≠ str "*init*" := by decide
  simp only [BreakApartCommands, hs, List.foldl_cons, List.foldl_nil, breakItem, hi, if_true,
    hne, if_false]

theorem rptMatch_not_ok_err (L : GoString) (h : rptMatch L = true) :
    okMatch L = false ∧ errMatch L = false := by
  have e1 : str "ok C:" = [111, 107, 32, 67, 58] := by decide
  have e2 : str "ok X:" = [111, 107, 32, 88, 58] := by decide
  have e3 : str "ok" = [111, 107] := by decide
  have e4 : str "error" = [101, 114, 114, 111, 114] := by decide
  simp only [rptMatch, okMatch, errMatch, e1, e2, e3, e4] at h ⊢
  match L, h with
  | [], h => simp at h
  | [_], h => simp at h
  | [_, _], h => simp at h
  | a :: b :: c :: t, h =>
    have ha : a = 111 := by
      simp at h
      rcases h with h | h <;> exact h.1.symm
    subst ha
    exact ⟨by simp, rfl⟩

/-- C11: for a line `L` that starts with "ok C:" or "ok X:" and does not contain "Repetier",
the loop body of `OnIncomingData` changes nothing but the last status, which becomes `L`,
and the hub, which receives the per-line message of `L`: no unit is polled, the queue, its
byte total, the paused flag and the version are unchanged, nothing is released and no
"Complete" or "Error" message is sent.  `BreakApartCommands` on "*status*" then returns
the empty list and sends exactly one per-line message, with the text `L` followed by a
line feed. -/
theorem C11_status_report_is_recorded (b : BufferflowRepetier) (L : GoString)
    (hrpt : rptMatch L = true) (hinit : initlineMatch L = false) :
    processLine b L =
      { b with
        LastStatus := L,
        broadcastSys := b.broadcastSys ++ [HubMsg.perLine ⟨b.Port, L ++ str "\n"⟩] } ∧
    (processLine b L).q = b.q ∧
    (processLine b L).q.LenOfCmds = b.q.LenOfCmds ∧
    (processLine b L).Paused = b.Paused ∧
    (processLine b L).version = b.version ∧
    (processLine b L).sem = b.sem ∧
    (processLine b L).LastStatus = L ∧
    ((processLine b L).BreakApartCommands (str "*status*")).2 = [] ∧
    ((processLine b L).BreakApartCommands (str "*status*")).1.broadcastSys
      = (processLine b L).broadcastSys ++ [HubMsg.perLine ⟨b.Port, L ++ str "\n"⟩] := by
  obtain ⟨h1, h2⟩ := rptMatch_not_ok_err L hrpt
  have hp : processLine b L =
      { b with
        LastStatus := L,
        broadcastSys := b.broadcastSys ++ [HubMsg.perLine ⟨b.Port, L ++ str "\n"⟩] } := by
    simp [processLine, h1, h2, hinit, hrpt]
  rw [BreakApartCommands_status, hp]
  simp

/-- C11, an instance: the report "ok C: X:1.00 Y:2.00" with three units queued and the gate
paused. -/
theorem C11_status_report_is_recorded_witness :
    rptMatch (str "ok C: X:1.00 Y:2.00") = true ∧
    initlineMatch (str "ok C: X:1.00 Y:2.00") = false ∧
    ((mkState 10 threeUnits true).OnIncomingData (str "ok C: X:1.00 Y:2.00\n")).q.items
      = threeUnits ∧
    (processLine (mkState 10 threeUnits true) (str "ok C: X:1.00 Y:2.00")).Paused = true ∧
    (processLine (mkState 10 threeUnits true) (str "ok C: X:1.00 Y:2.00")).LastStatus
      = str "ok C: X:1.00 Y:2.00" := by
  have h := C11_status_report_is_recorded (mkState 10 threeUnits true)
    (str "ok C: X:1.00 Y:2.00") (by decide) (by decide)
  exact ⟨by decide, by decide, by decide, h.2.2.2.1, h.2.2.2.2.2.2.1⟩

/-! ## C13, C15 -/

theorem split_of_no_lf (s : GoString) : ∀ cur : GoString, (10 : UInt8) ∉ s →
    reNewLineSplit cur s = [cur ++ s] := by
  induction s with
  | nil => intro cur _; simp [split_nil]
  | cons c t ih =>
    intro cur h
    have hc : c ≠ 10 := fun hc => h (by simp [hc])
    have ht : (10 : UInt8) ∉ t := fun ht => h (by simp [ht])
    by_cases h13 : c = 13
    · subst h13
      match t, ht, ih with
      | [], _, _ => simp [split_cr]
      | d :: u, ht, ih =>
        have hd : d ≠ 10 := fun hd => ht (by simp [hd])
        rw [split_cr_other _ _ _ hd, ih _ ht]
        simp
    · rw [split_other _ _ _ hc h13, ih _ ht]
      simp

/-- C13: when the accumulator followed by the data holds no line feed, `OnIncomingData` only
appends the data to the accumulator: no hub message, no release, and the queue, the
paused flag, the last status and the version are unchanged. -/
theorem C13_no_complete_line_no_effect (b : BufferflowRepetier) (d : GoString)
    (h : (10 : UInt8) ∉ b.LatestData ++ d) :
    b.OnIncomingData d = { b with LatestData := b.LatestData ++ d } ∧
    (b.OnIncomingData d).broadcastSys = b.broadcastSys ∧
    (b.OnIncomingData d).sem = b.sem ∧
    (b.OnIncomingData d).q = b.q ∧
    (b.OnIncomingData d).Paused = b.Paused ∧
    (b.OnIncomingData d).LastStatus = b.LastStatus ∧
    (b.OnIncomingData d).version = b.version ∧
    (b.OnIncomingData d).LatestData = b.LatestData ++ d := by
  have hs := split_of_no_lf (b.LatestData ++ d) [] h
  have : b.OnIncomingData d = { b with LatestData := b.LatestData ++ d } := by
    simp [OnIncomingData, hs]
  rw [this]
  simp

/-- C13, an instance: the data "ok\r" and then " C: X" with no line feed yet. -/
theorem C13_no_complete_line_no_effect_witness :
    (10 : UInt8) ∉ (mkState 10 threeUnits true).LatestData ++ str "ok\r" ∧
    (mkState 10 threeUnits true).OnIncomingData (str "ok\r")
      = { mkState 10 threeUnits true with LatestData := str "ok\r" } ∧
    (10 : UInt8) ∉ ((mkState 10 threeUnits true).OnIncomingData (str "ok\r")).LatestData
      ++ str " C: X" ∧
    (((mkState 10 threeUnits true).OnIncomingData (str "ok\r")).OnIncomingData
      (str " C: X")).LatestData = str "ok\r C: X" :=
  ⟨by decide,
   (C13_no_complete_line_no_effect (mkState 10 threeUnits true) (str "ok\r") (by decide)).1,
   by decide, by decide⟩

theorem compile_pause_pattern : compileCharSet .start 0 [] (str "[!]") = .ok [33] := rfl
theorem compile_unpause_pattern : compileCharSet .start 0 [] (str "[~]") = .ok [126] := rfl
theorem compile_wipe_pattern : compileCharSet .start 0 [] (str "(\u0018)") = .ok [24] := rfl

/-- C15: `SeeIfSpecificCommandsShouldPauseBuffer` is true exactly for the commands that contain
`!` (byte 33), `SeeIfSpecificCommandsShouldUnpauseBuffer` exactly for those that contain
`~` (byte 126), `SeeIfSpecificCommandsShouldWipeBuffer` exactly for those that contain
U+0018 (byte 24), and `SeeIfSpecificCommandsReturnNoResponse` is false. -/
theorem C15_directive_predicates (b : BufferflowRepetier) (cmd : GoString) :
    (b.SeeIfSpecificCommandsShouldPauseBuffer cmd = true ↔ (33 : UInt8) ∈ cmd) ∧
    (b.SeeIfSpecificCommandsShouldUnpauseBuffer cmd = true ↔ (126 : UInt8) ∈ cmd) ∧
    (b.SeeIfSpecificCommandsShouldWipeBuffer cmd = true ↔ (24 : UInt8) ∈ cmd) ∧
    b.SeeIfSpecificCommandsReturnNoResponse cmd = false ∧
    str "!" = [33] ∧ str "~" = [126] ∧ str "\u0018" = [24] := by
  refine ⟨?_, ?_, ?_, rfl, by decide, by decide, by decide⟩
  · simp [SeeIfSpecificCommandsShouldPauseBuffer, matchIgnoringError, regexpMatchString,
      compile_pause_pattern]
  · simp [SeeIfSpecificCommandsShouldUnpauseBuffer, matchIgnoringError, regexpMatchString,
      compile_unpause_pattern]
  · simp [SeeIfSpecificCommandsShouldWipeBuffer, matchIgnoringError, regexpMatchString,
      compile_wipe_pattern]

/-! ## C19, C12 -/

/-- C19: with an empty queue, a paused gate and a positive capacity, a line that is exactly
"ok" or starts with "error" opens the gate and issues one release 1 (RESUME) although no
unit is polled and no "Complete" or "Error" message is sent.  The capacity is positive in
every state of the program: `Init`, the only method that assigns `BufferMax`, sets it to
127, whatever the state before.  For every state: right after a completion or error line
has been processed, the gate is paused only if the byte total is at least `BufferMax`. -/
theorem C19_stray_acknowledgment_releases (b : BufferflowRepetier) (L : GoString)
    (hq : b.q.items = []) (hp : b.Paused = true) (hmax : 0 < b.BufferMax)
    (hL : okMatch L = true ∨ errMatch L = true) :
    (processLine b L).Paused = false ∧
    (processLine b L).sem = b.sem ++ [1] ∧
    (processLine b L).q = b.q ∧
    (processLine b L).broadcastSys
      = b.broadcastSys ++ [HubMsg.perLine ⟨b.Port, L ++ str "\n"⟩] ∧
    (∀ (x : BufferflowRepetier) (l : GoString), (okMatch l = true ∨ errMatch l = true) →
      (processLine x l).Paused = true → (processLine x l).q.LenOfCmds ≥ x.BufferMax) ∧
    (∀ b0 : BufferflowRepetier, b0.Init.BufferMax = 127 ∧ b0.Init.Pause.BufferMax = 127 ∧
      b0.Init.Pause.q.items = [] ∧ b0.Init.Pause.Paused = true) := by
  have hlen : ¬ (b.q.Len > 0) := by simp [Queue.Len, hq]
  have htot : b.q.LenOfCmds < b.BufferMax := by simpa [Queue.LenOfCmds, hq] using hmax
  refine ⟨?_, ?_, ?_, ?_, ?_, fun b0 => ⟨rfl, rfl, rfl, rfl⟩⟩
  · simp only [processLine, GetPaused, SetPaused, LocalBufferWipe, ReleaseLock]
    rcases hL with h | h <;> simp [h, hlen, htot, hp]
  · simp only [processLine, GetPaused, SetPaused, LocalBufferWipe, ReleaseLock]
    rcases hL with h | h <;> simp [h, hlen, htot, hp]
  · simp only [processLine, GetPaused, SetPaused, LocalBufferWipe, ReleaseLock]
    rcases hL with h | h <;> simp [h, hlen, htot, hp]
  · simp only [processLine, GetPaused, SetPaused, LocalBufferWipe, ReleaseLock]
    rcases hL with h | h <;> simp [h, hlen, htot, hp]
  · intro x l hl
    simp only [processLine, GetPaused, SetPaused, LocalBufferWipe, ReleaseLock]
    rcases hl with h | h <;> split_ifs <;> simp_all

/-- C19, an instance: a controller after `Init` and `Pause()`, and the lines "ok" and
"error: checksum". -/
theorem C19_stray_acknowledgment_releases_witness :
    (mkState 10 [] false).Init.Pause.q.items = [] ∧
    (mkState 10 [] false).Init.Pause.Paused = true ∧
    (mkState 10 [] false).Init.Pause.BufferMax = 127 ∧
    (mkState 10 [] false).Init.Pause.sem = [1] ∧
    (processLine (mkState 10 [] false).Init.Pause (str "ok")).Paused = false ∧
    (processLine (mkState 10 [] false).Init.Pause (str "ok")).sem = [1, 1] ∧
    ((mkState 10 [] false).Init.Pause.OnIncomingData (str "error: checksum\n")).sem
      = [1, 1] := by
  have h := C19_stray_acknowledgment_releases (mkState 10 [] false).Init.Pause (str "ok")
    (by decide) (by decide) (by decide) (Or.inl (by decide))
  exact ⟨by decide, by decide, by decide, by decide, h.1, h.2.1, by decide⟩

theorem wrapInt64_of_range (y : Int) (h1 : -9223372036854775808 ≤ y)
    (h2 : y < 9223372036854775808) : wrapInt64 y = y := by
  unfold wrapInt64
  omega

theorem foldl_decInt (l : List (GoString × GoString)) : ∀ x : Int,
    l.foldl (fun n _ => decInt n) x = decInt^[l.length] x := by
  induction l with
  | nil => intro x; rfl
  | cons a t ih => intro x; rw [List.foldl_cons, ih]; rfl

theorem iterate_decInt_of_range (n : Nat) : ∀ x : Int,
    -9223372036854775808 ≤ x - (n : Int) → x < 9223372036854775808 →
    decInt^[n] x = x - (n : Int) := by
  induction n with
  | zero => intro x _ _; simp
  | succ n ih =>
    intro x h1 h2
    have hd : decInt x = x - 1 := by
      unfold decInt
      exact wrapInt64_of_range _ (by push_cast at h1; omega) (by omega)
    rw [Function.iterate_succ_apply, hd, ih (x - 1) (by push_cast at h1 ⊢; omega) (by omega)]
    push_cast
    omega

/-- On a closed staging channel the drain loop counts the closing receive as well: with one
command staged and an in-flight counter of 1 the counter ends at -1. -/
theorem LocalBufferWipe_closed_channel :
    closedPortState.parent_serport.sendBuffered.length = 1 ∧
    closedPortState.parent_serport.itemsInBuffer = 1 ∧
    closedPortState.LocalBufferWipe.parent_serport.itemsInBuffer = -1 ∧
    closedPortState.LocalBufferWipe.broadcastSys = [HubMsg.wipedQueue (-1) (str "COM1")] := by
  decide

/-- C12: `ReleaseLock` empties the queue (no unit, no byte), opens the gate and issues exactly
one release 2 (WIPE), leaving accumulator, last status, version and hub untouched.
`LocalBufferWipe`, on a transport whose staging channel is open (neither the sources nor
the specification close it), does the same, empties the staging channel, runs
`p.itemsInBuffer--` once for each staged item (so the counter is lower by the number of
items, unless the `int` wraps around), and sends one `WipedQueue` message whose `QCnt` is
the counter after the drain and whose `Port` is the name of the port. -/
theorem C12_wipe_path (b : BufferflowRepetier)
    (hopen : b.parent_serport.sendBufferedClosed = false) :
    (b.ReleaseLock.q.items = [] ∧ b.ReleaseLock.q.Len = 0 ∧ b.ReleaseLock.q.LenOfCmds = 0 ∧
      b.ReleaseLock.Paused = false ∧ b.ReleaseLock.sem = b.sem ++ [2] ∧
      b.ReleaseLock.LatestData = b.LatestData ∧ b.ReleaseLock.LastStatus = b.LastStatus ∧
      b.ReleaseLock.version = b.version ∧ b.ReleaseLock.broadcastSys = b.broadcastSys) ∧
    (b.LocalBufferWipe.q.items = [] ∧ b.LocalBufferWipe.q.Len = 0 ∧
      b.LocalBufferWipe.q.LenOfCmds = 0 ∧ b.LocalBufferWipe.Paused = false ∧
      b.LocalBufferWipe.sem = b.sem ++ [2] ∧
      b.LocalBufferWipe.LatestData = b.LatestData ∧
      b.LocalBufferWipe.LastStatus = b.LastStatus ∧
      b.LocalBufferWipe.version = b.version ∧
      b.LocalBufferWipe.parent_serport.sendBuffered = [] ∧
      b.LocalBufferWipe.parent_serport.itemsInBuffer
        = decInt^[b.parent_serport.sendBuffered.length] b.parent_serport.itemsInBuffer ∧
      ((-9223372036854775808 ≤ b.parent_serport.itemsInBuffer
            - (b.parent_serport.sendBuffered.length : Int) ∧
          b.parent_serport.itemsInBuffer < 9223372036854775808) →
        b.LocalBufferWipe.parent_serport.itemsInBuffer
          = b.parent_serport.itemsInBuffer - (b.parent_serport.sendBuffered.length : Int)) ∧
      b.LocalBufferWipe.broadcastSys = b.broadcastSys ++
        [HubMsg.wipedQueue b.LocalBufferWipe.parent_serport.itemsInBuffer
          b.parent_serport.portConfName]) := by
  have hcount : b.LocalBufferWipe.parent_serport.itemsInBuffer
      = decInt^[b.parent_serport.sendBuffered.length] b.parent_serport.itemsInBuffer := by
    simp [LocalBufferWipe, ReleaseLock, SetPaused, drainSendBuffered, hopen, foldl_decInt]
  refine ⟨?_, ?_, ?_, ?_, ?_, ?_, ?_, ?_, ?_, ?_, hcount, ?_, ?_⟩
  · simp [ReleaseLock, SetPaused, Queue.Delete, Queue.Len, Queue.LenOfCmds]
  · simp [LocalBufferWipe, ReleaseLock, SetPaused, Queue.Delete]
  · simp [LocalBufferWipe, ReleaseLock, SetPaused, Queue.Delete, Queue.Len]
  · simp [LocalBufferWipe, ReleaseLock, SetPaused, Queue.Delete, Queue.LenOfCmds]
  · simp [LocalBufferWipe, ReleaseLock, SetPaused]
  · simp [LocalBufferWipe, ReleaseLock, SetPaused]
  · simp [LocalBufferWipe, ReleaseLock, SetPaused]
  · simp [LocalBufferWipe, ReleaseLock, SetPaused]
  · simp [LocalBufferWipe, ReleaseLock, SetPaused]
  · simp [LocalBufferWipe, ReleaseLock, SetPaused, drainSendBuffered]
  · rintro ⟨h1, h2⟩
    rw [hcount, iterate_decInt_of_range _ _ h1 h2]
  · simp [LocalBufferWipe, ReleaseLock, SetPaused, drainSendBuffered]

/-- C12, an instance: two commands staged in an open channel and an in-flight counter of 2;
the wipe leaves the counter at 0, the queue empty and the gate open. -/
theorem C12_wipe_path_witness :
    stagedPortState.parent_serport.sendBufferedClosed = false ∧
    stagedPortState.parent_serport.sendBuffered.length = 2 ∧
    stagedPortState.LocalBufferWipe.q.items = [] ∧
    stagedPortState.LocalBufferWipe.Paused = false ∧
    stagedPortState.LocalBufferWipe.sem = [2] ∧
    stagedPortState.LocalBufferWipe.parent_serport.itemsInBuffer = 0 ∧
    stagedPortState.LocalBufferWipe.broadcastSys = [HubMsg.wipedQueue 0 (str "COM1")] := by
  have h := C12_wipe_path stagedPortState rfl
  exact ⟨rfl, by decide, h.2.1, h.2.2.2.2.1, h.2.2.2.2.2.1, by decide, by decide⟩

/-! ## C14, C16: every line is forwarded -/

theorem perLineMsgs_append (l1 l2 : List HubMsg) :
    perLineMsgs (l1 ++ l2) = perLineMsgs l1 ++ perLineMsgs l2 := by
  induction l1 with
  | nil => rfl
  | cons m t ih => cases m <;> simp [perLineMsgs, ih]

theorem processLine_perLine (b : BufferflowRepetier) (l : GoString) :
    (processLine b l).Port = b.Port ∧
    ∃ new, (processLine b l).broadcastSys = b.broadcastSys ++ new ∧
      perLineMsgs new = [⟨b.Port, l ++ str "\n"⟩] := by
  simp only [processLine, GetPaused, SetPaused, LocalBufferWipe, ReleaseLock]
  split_ifs <;> refine ⟨rfl, ?_⟩ <;> (try simp only [List.append_assoc]) <;>
    exact ⟨_, rfl, by simp [perLineMsgs]⟩

theorem foldl_processLine_perLine (ls : List GoString) : ∀ b : BufferflowRepetier,
    (ls.foldl processLine b).Port = b.Port ∧
    ∃ new, (ls.foldl processLine b).broadcastSys = b.broadcastSys ++ new ∧
      perLineMsgs new = ls.map (fun l => (⟨b.Port, l ++ str "\n"⟩ : DataPerLine)) := by
  induction ls with
  | nil => intro b; exact ⟨rfl, [], by simp, rfl⟩
  | cons l ls ih =>
    intro b
    obtain ⟨hp, new1, h1, h2⟩ := processLine_perLine b l
    obtain ⟨hp2, new2, h3, h4⟩ := ih (processLine b l)
    refine ⟨by rw [List.foldl_cons, hp2, hp], new1 ++ new2, ?_, ?_⟩
    · rw [List.foldl_cons, h3, h1, List.append_assoc]
    · rw [perLineMsgs_append, h2, h4, hp]; rfl

theorem getLastD_split_no_lf (s : GoString) :
    (10 : UInt8) ∉ (reNewLineSplit [] s).getLastD [] := by
  rw [(reNewLineSplit_lines _ s le_rfl [] (by simp)).2]
  exact restLF_no_lf s [] (by simp)

/-- C16: with `f1, …, fk` the fragments of the accumulator followed by the data, `OnIncomingData`
sends exactly `k - 1` per-line messages, in order, the `i`-th with the port and the text
`fi` followed by a line feed, whatever else the line triggers; afterwards the accumulator
is `fk`, and it holds no line feed.  (For `k = 1` no message is sent.) -/
theorem C16_per_line_passthrough (b : BufferflowRepetier) (data : GoString) :
    (∃ new, (b.OnIncomingData data).broadcastSys = b.broadcastSys ++ new ∧
      perLineMsgs new = (reNewLineSplit [] (b.LatestData ++ data)).dropLast.map
        (fun f => (⟨b.Port, f ++ str "\n"⟩ : DataPerLine)) ∧
      (perLineMsgs new).length = (reNewLineSplit [] (b.LatestData ++ data)).length - 1) ∧
    (b.OnIncomingData data).LatestData
      = (reNewLineSplit [] (b.LatestData ++ data)).getLastD [] ∧
    (10 : UInt8) ∉ (b.OnIncomingData data).LatestData := by
  rw [OnIncomingData_eq]
  obtain ⟨_, new, h1, h2⟩ :=
    foldl_processLine_perLine (reNewLineSplit [] (b.LatestData ++ data)).dropLast b
  refine ⟨⟨new, h1, h2, ?_⟩, rfl, getLastD_split_no_lf _⟩
  rw [h2]; simp

/-- C14: with an empty queue, a line that is exactly "ok" or starts with "error" polls nothing
and leaves the queue empty; the only message sent for it is its per-line message.  The
loop goes on: whatever lines follow, each of them gets its per-line message in turn, and a
call whose first complete line is such a line is the loop body run over the later lines
from the state that line left. -/
theorem C14_stray_line_is_survived (b : BufferflowRepetier) (L : GoString)
    (hq : b.q.items = []) (hL : okMatch L = true ∨ errMatch L = true) :
    (processLine b L).q = b.q ∧
    (processLine b L).broadcastSys
      = b.broadcastSys ++ [HubMsg.perLine ⟨b.Port, L ++ str "\n"⟩] ∧
    (∀ rest : List GoString, ∃ new,
      ((L :: rest).foldl processLine b).broadcastSys = b.broadcastSys ++ new ∧
      perLineMsgs new = (L :: rest).map (fun l => (⟨b.Port, l ++ str "\n"⟩ : DataPerLine))) ∧
    (∀ (data : GoString) (rest : List GoString),
      (reNewLineSplit [] (b.LatestData ++ data)).dropLast = L :: rest →
      b.OnIncomingData data
        = setLatestData (rest.foldl processLine (processLine b L))
            ((reNewLineSplit [] (b.LatestData ++ data)).getLastD [])) := by
  have hlen : ¬ (b.q.Len > 0) := by simp [Queue.Len, hq]
  refine ⟨?_, ?_, ?_, ?_⟩
  · simp only [processLine, GetPaused, SetPaused, LocalBufferWipe, ReleaseLock]
    rcases hL with h | h <;> simp only [h, hlen] <;> split_ifs <;> simp_all
  · simp only [processLine, GetPaused, SetPaused, LocalBufferWipe, ReleaseLock]
    rcases hL with h | h <;> simp only [h, hlen] <;> split_ifs <;> simp_all
  · intro rest
    exact (foldl_processLine_perLine (L :: rest) b).2
  · intro data rest hd
    rw [OnIncomingData_eq, hd, List.foldl_cons]

/-- C14, an instance: "ok" arrives with an empty queue, followed in the same chunk by a status
report and a banner; both are classified (last status recorded, queue wiped) and all
three lines are forwarded. -/
theorem C14_stray_line_is_survived_witness :
    (mkState 10 [] false).q.items = [] ∧
    okMatch (str "ok") = true ∧
    ((mkState 10 [] false).OnIncomingData (str "ok\nok C: X:1\nstart Repetier\n")).broadcastSys
      = [HubMsg.perLine ⟨str "COM1", str "ok\n"⟩,
         HubMsg.perLine ⟨str "COM1", str "ok C: X:1\n"⟩,
         HubMsg.wipedQueue 0 (str "COM1"),
         HubMsg.perLine ⟨str "COM1", str "start Repetier\n"⟩] ∧
    ((mkState 10 [] false).OnIncomingData (str "ok\nok C: X:1\nstart Repetier\n")).LastStatus
      = str "ok C: X:1" ∧
    (processLine (mkState 10 [] false) (str "ok")).q = ⟨[]⟩ := by
  have h := C14_stray_line_is_survived (mkState 10 [] false) (str "ok") (by decide)
    (Or.inl (by decide))
  exact ⟨by decide, by decide, by decide, by decide, h.1⟩

/-- C16, an instance: the data "ok\r\nfoo\n\nba" gives the lines "ok" and "foo" and leaves
"ba" in the accumulator. -/
theorem C16_per_line_passthrough_witness :
    2 ≤ (reNewLineSplit [] ((mkState 10 threeUnits true).LatestData
      ++ str "ok\r\nfoo\n\nba")).length ∧
    ((mkState 10 threeUnits true).OnIncomingData (str "ok\r\nfoo\n\nba")).LatestData
      = str "ba" ∧
    perLineMsgs ((mkState 10 threeUnits true).OnIncomingData (str "ok\r\nfoo\n\nba")).broadcastSys
      = [⟨str "COM1", str "ok\n"⟩, ⟨str "COM1", str "foo\n"⟩] := by
  have h := C16_per_line_passthrough (mkState 10 threeUnits true) (str "ok\r\nfoo\n\nba")
  exact ⟨by decide, h.2.1, by decide⟩

/-! ## C17, C18: the commands returned by `BreakApartCommands` -/

theorem noParenPair_cons (c : UInt8) (t : GoString) :
    noParenPair (c :: t) = true ↔ (c = 40 → (41 : UInt8) ∉ t) ∧ noParenPair t = true := by
  simp [noParenPair]
  tauto

theorem noParenPair_stripParens (l : GoString) : ∀ i : Bool, (10 : UInt8) ∉ l →
    noParenPair (stripParens i l) = true := by
  induction l with
  | nil => intro i _; simp [stripParens, noParenPair]
  | cons c t ih =>
    intro i h
    have hc : c ≠ 10 := fun hc => h (by simp [hc])
    have ht : (10 : UInt8) ∉ t := fun ht => h (by simp [ht])
    simp only [stripParens]
    split_ifs with h1 h2 h3
    · exact ih _ ht
    · exact ih _ ht
    · exact ih _ ht
    · rw [noParenPair_cons]
      refine ⟨fun h40 hm => ?_, ih _ ht⟩
      have hm' : (41 : UInt8) ∈ t := mem_of_mem_stripParens _ _ _ hm
      apply h3
      simp only [h40, true_and, Bool.and_eq_true, decide_eq_true_eq]
      -- without a line feed a later `)` closes the comment
      clear h3 ih hm h
      induction t with
      | nil => simp at hm'
      | cons d u ihu =>
        simp only [closesParen]
        split_ifs with a1 a2
        · rfl
        · exact absurd (by simp [a2]) ht
        · have : (41 : UInt8) ∈ u := by
            rcases List.mem_cons.mp hm' with e | e
            · exact absurd e.symm a1
            · exact e
          exact ihu (fun hu => ht (by simp [hu])) this

theorem noParenPair_filter (f : UInt8 → Bool) (s : GoString) (h : noParenPair s = true) :
    noParenPair (s.filter f) = true := by
  induction s with
  | nil => rfl
  | cons c t ih =>
    rw [noParenPair_cons] at h
    rw [List.filter_cons]
    split_ifs
    · rw [noParenPair_cons]
      exact ⟨fun h40 hm => h.1 h40 (List.mem_of_mem_filter hm), ih h.2⟩
    · exact ih h.2

theorem noParenPair_takeWhile (f : UInt8 → Bool) (s : GoString) (h : noParenPair s = true) :
    noParenPair (s.takeWhile f) = true := by
  induction s with
  | nil => rfl
  | cons c t ih =>
    rw [noParenPair_cons] at h
    rw [List.takeWhile_cons]
    split_ifs
    · rw [noParenPair_cons]
      exact ⟨fun h40 hm => h.1 h40 (List.takeWhile_subset _ hm), ih h.2⟩
    · rfl

theorem noParenPair_spec (s : GoString) (h : noParenPair s = true) :
    ∀ p q : GoString, s = p ++ 40 :: q → (41 : UInt8) ∉ q := by
  induction s with
  | nil => intro p q hpq; simp at hpq
  | cons c t ih =>
    intro p q hpq
    rw [noParenPair_cons] at h
    cases p with
    | nil =>
      simp at hpq
      rw [← hpq.2]
      exact h.1 hpq.1
    | cons x p' =>
      simp at hpq
      exact ih h.2 p' q hpq.2

theorem stripParens_of_noParenPair (s : GoString) (h : noParenPair s = true) :
    stripParens false s = s := by
  induction s with
  | nil => rfl
  | cons c t ih =>
    rw [noParenPair_cons] at h
    simp only [stripParens]
    have : ¬ ((decide (c = 40) && closesParen t) = true) := by
      intro hc
      simp only [Bool.and_eq_true, decide_eq_true_eq] at hc
      exact h.1 hc.1 (closesParen_mem _ hc.2)
    rw [if_neg (by simp), if_neg this, ih h.2]

/-- What stripping leaves: a text without line feed, space, semicolon or closed
parenthesis, on which stripping changes nothing. -/
theorem stripItem_shape (l : GoString) (h : (10 : UInt8) ∉ l) :
    (10 : UInt8) ∉ stripItem l ∧ (32 : UInt8) ∉ stripItem l ∧ (59 : UInt8) ∉ stripItem l ∧
    noParenPair (stripItem l) = true ∧ stripItem (stripItem l) = stripItem l := by
  have h1 : (10 : UInt8) ∉ stripParens false l := fun hm => h (mem_of_mem_stripParens _ _ _ hm)
  have e := stripItem_eq_lists l h
  have a10 : (10 : UInt8) ∉ stripItem l := by
    rw [e]; intro hm
    exact h1 (List.takeWhile_subset _ (List.mem_of_mem_filter hm))
  have a32 : (32 : UInt8) ∉ stripItem l := by
    rw [e]; simp
  have a59 : (59 : UInt8) ∉ stripItem l := by
    rw [e]; intro hm
    have := List.mem_takeWhile_imp (List.mem_of_mem_filter hm)
    simp at this
  have anp : noParenPair (stripItem l) = true := by
    rw [e]
    exact noParenPair_filter _ _ (noParenPair_takeWhile _ _ (noParenPair_stripParens l false h))
  refine ⟨a10, a32, a59, anp, ?_⟩
  have b1 : stripParens false (stripItem l) = stripItem l := stripParens_of_noParenPair _ anp
  have b2 : stripSemicolon false (stripItem l) = stripItem l := by
    rw [(stripSemicolon_of_no_lf _ a10).2, List.takeWhile_eq_self_iff]
    intro x hx
    simp only [bne_iff_ne, ne_eq]
    exact fun hx59 => a59 (hx59 ▸ hx)
  have b3 : removeSpaces (stripItem l) = stripItem l := by
    rw [removeSpaces, List.filter_eq_self]
    intro x hx
    simp only [bne_iff_ne, ne_eq]
    exact fun hx32 => a32 (hx32 ▸ hx)
  show removeSpaces (stripSemicolon false (stripParens false (stripItem l))) = stripItem l
  rw [b1, b2, b3]

theorem str_lf : str "\n" = [10] := by decide

theorem itemOutput_some (l e : GoString) (h : itemOutput l = some e) :
    e = stripItem l ++ [10] ∧ stripItem l ≠ [] ∧ stripItem l ≠ str "*init*" ∧
    stripItem l ≠ str "*status*" ∧ stripItem l ≠ str "%" := by
  simp only [itemOutput, str_lf] at h
  split_ifs at h with hc
  simp only [Option.some.injEq] at h
  exact ⟨h.symm, hc⟩

/-- Every element returned by `BreakApartCommands` is the stripped text of a line of the
submission, followed by a line feed. -/
theorem mem_BreakApartCommands (b : BufferflowRepetier) (s e : GoString)
    (h : e ∈ (b.BreakApartCommands s).2) :
    ∃ l : GoString, (10 : UInt8) ∉ l ∧ e = stripItem l ++ [10] ∧ stripItem l ≠ [] ∧
      stripItem l ≠ str "*init*" ∧ stripItem l ≠ str "*status*" ∧ stripItem l ≠ str "%" := by
  rw [BreakApartCommands_snd, List.mem_filterMap] at h
  obtain ⟨l, hl, he⟩ := h
  exact ⟨l, stringsSplitLF_no_lf s [] (by simp) l hl, itemOutput_some l e he⟩

/-- C18: every element returned by `BreakApartCommands` has at least two bytes, ends with a line
feed and holds no other line feed, holds no space and no semicolon, holds no `(` that is
followed later by a `)`, and is none of "*init*\n", "*status*\n", "%\n". -/
theorem C18_shape_of_commands (b : BufferflowRepetier) (s e : GoString)
    (h : e ∈ (b.BreakApartCommands s).2) :
    2 ≤ e.length ∧ e.getLast? = some 10 ∧ (10 : UInt8) ∉ e.dropLast ∧
    (32 : UInt8) ∉ e ∧ (59 : UInt8) ∉ e ∧
    (∀ p q : GoString, e = p ++ 40 :: q → (41 : UInt8) ∉ q) ∧
    e ≠ str "*init*\n" ∧ e ≠ str "*status*\n" ∧ e ≠ str "%\n" := by
  obtain ⟨l, hl, he, hne, h1, h2, h3⟩ := mem_BreakApartCommands b s e h
  obtain ⟨a10, a32, a59, anp, _⟩ := stripItem_shape l hl
  subst he
  have e1 : str "*init*\n" = str "*init*" ++ [10] := by decide
  have e2 : str "*status*\n" = str "*status*" ++ [10] := by decide
  have e3 : str "%\n" = str "%" ++ [10] := by decide
  refine ⟨?_, by simp, by simpa using a10, by simp [a32], by simp [a59], ?_, ?_, ?_, ?_⟩
  · have := List.length_pos.mpr hne
    simp; omega
  · intro p q hpq
    -- the line feed at the end is not a parenthesis
    have hq : q ≠ [] → ∃ q', q = q' ++ [10] ∧ stripItem l = p ++ 40 :: q' := by
      intro hqne
      obtain ⟨q', x, rfl⟩ : ∃ q' x, q = q' ++ [x] := ⟨q.dropLast, q.getLast hqne,
        (List.dropLast_append_getLast hqne).symm⟩
      have : stripItem l ++ [10] = (p ++ 40 :: q') ++ [x] := by simpa using hpq
      have h' := List.append_inj' this rfl
      exact ⟨q', by rw [← (List.singleton_inj.mp h'.2)], h'.1⟩
    by_cases hqe : q = []
    · simp [hqe]
    · obtain ⟨q', rfl, hs⟩ := hq hqe
      have := noParenPair_spec _ anp p q' hs
      simp [this]
  · rw [e1]; exact fun hc => h1 (List.append_cancel_right hc)
  · rw [e2]; exact fun hc => h2 (List.append_cancel_right hc)
  · rw [e3]; exact fun hc => h3 (List.append_cancel_right hc)

theorem stringsSplitLF_line (t rest : GoString) (h : (10 : UInt8) ∉ t) : ∀ cur : GoString,
    stringsSplitLF cur (t ++ 10 :: rest) = (cur ++ t) :: stringsSplitLF [] rest := by
  induction t with
  | nil => intro cur; simp [stringsSplitLF]
  | cons c u ih =>
    intro cur
    have hc : c ≠ 10 := fun hc => h (by simp [hc])
    have e : stringsSplitLF cur (c :: u ++ 10 :: rest)
        = stringsSplitLF (cur ++ [c]) (u ++ 10 :: rest) := by
      simp only [List.cons_append, stringsSplitLF, hc, if_false]
      rfl
    rw [e, ih (fun hu => h (by simp [hu]))]
    simp

theorem stringsSplitLF_lines (ts : List GoString) (h : ∀ t ∈ ts, (10 : UInt8) ∉ t) :
    stringsSplitLF [] (ts.map (fun t => t ++ [10])).flatten = ts ++ [[]] := by
  induction ts with
  | nil => rfl
  | cons t ts ih =>
    have : ((t :: ts).map (fun t => t ++ [10])).flatten
        = t ++ 10 :: (ts.map (fun t => t ++ [10])).flatten := by simp
    rw [this, stringsSplitLF_line _ _ (h t (by simp)), ih (fun u hu => h u (by simp [hu]))]
    simp

theorem breakItem_plain (b : BufferflowRepetier) (acc : List GoString) (t : GoString)
    (hs : stripItem t = t) (hne : t ≠ []) (h1 : t ≠ str "*init*") (h2 : t ≠ str "*status*")
    (h3 : t ≠ str "%") : breakItem (b, acc) t = (b, acc ++ [t ++ [10]]) := by
  have e0 : str "" = [] := by decide
  have hs' : removeSpaces (stripSemicolon false (stripParens false t)) = t := hs
  simp only [breakItem, hs', h1, h2, h3, if_false, e0, str_lf]
  split_ifs <;> simp_all

theorem breakItem_nil (st : BufferflowRepetier × List GoString) : breakItem st [] = st := by
  have hs : removeSpaces (stripSemicolon false (stripParens false [])) = [] := rfl
  have e0 : str "" = [] := by decide
  have e1 : ([] : GoString) ≠ str "*init*" := by decide
  have e2 : ([] : GoString) ≠ str "*status*" := by decide
  have e3 : ([] : GoString) ≠ str "M114" := by decide
  have e4 : ([] : GoString) ≠ str "%" := by decide
  simp [breakItem, hs, e0, e1, e2, e3, e4]

theorem foldl_breakItem_plain (ts : List GoString) : ∀ (b : BufferflowRepetier)
    (acc : List GoString),
    (∀ t ∈ ts, stripItem t = t ∧ t ≠ [] ∧ t ≠ str "*init*" ∧ t ≠ str "*status*" ∧
      t ≠ str "%") →
    ts.foldl breakItem (b, acc) = (b, acc ++ ts.map (fun t => t ++ [10])) := by
  induction ts with
  | nil => intro b acc _; simp
  | cons t ts ih =>
    intro b acc h
    obtain ⟨a1, a2, a3, a4, a5⟩ := h t (by simp)
    rw [List.foldl_cons, breakItem_plain b acc t a1 a2 a3 a4 a5,
      ih b _ (fun u hu => h u (by simp [hu]))]
    simp

/-- C17: for every submission `s` and every state `c` in which the second call is made,
`BreakApartCommands` applied to the concatenation of the elements of
`BreakApartCommands(s)` returns those elements again and leaves the controller as it was:
no hub message is sent and the wipe path is not taken. -/
theorem C17_BreakApartCommands_idempotent (b c : BufferflowRepetier) (s : GoString) :
    c.BreakApartCommands (b.BreakApartCommands s).2.flatten
      = (c, (b.BreakApartCommands s).2) := by
  -- the stripped texts behind the output
  obtain ⟨ts, hts, hout⟩ : ∃ ts : List GoString,
      (∀ t ∈ ts, (10 : UInt8) ∉ t ∧ stripItem t = t ∧ t ≠ [] ∧ t ≠ str "*init*" ∧
        t ≠ str "*status*" ∧ t ≠ str "%") ∧
      (b.BreakApartCommands s).2 = ts.map (fun t => t ++ [10]) := by
    generalize hout : (b.BreakApartCommands s).2 = out
    have hmem : ∀ e ∈ out, ∃ l : GoString, (10 : UInt8) ∉ l ∧ e = stripItem l ++ [10] ∧
        stripItem l ≠ [] ∧ stripItem l ≠ str "*init*" ∧ stripItem l ≠ str "*status*" ∧
        stripItem l ≠ str "%" := fun e he => mem_BreakApartCommands b s e (hout ▸ he)
    clear hout
    induction out with
    | nil => exact ⟨[], by simp, rfl⟩
    | cons e out ih =>
      obtain ⟨l, hl, he, h0, h1, h2, h3⟩ := hmem e (by simp)
      obtain ⟨ts, hts, hmap⟩ := ih (fun x hx => hmem x (by simp [hx]))
      obtain ⟨a10, _, _, _, aid⟩ := stripItem_shape l hl
      refine ⟨stripItem l :: ts, ?_, by simp [he, hmap]⟩
      intro t ht
      rcases List.mem_cons.mp ht with rfl | ht
      · exact ⟨a10, aid, h0, h1, h2, h3⟩
      · exact hts t ht
  rw [hout, BreakApartCommands, stringsSplitLF_lines ts (fun t ht => (hts t ht).1),
    List.foldl_append, foldl_breakItem_plain ts c [] (fun t ht => (hts t ht).2)]
  simp [breakItem_nil]

/-- C18, an instance: the element "G1X1\n" of the commands returned for
"G1 X1 (move) ; go\n%\n(M114". -/
theorem C18_shape_of_commands_witness :
    str "G1X1\n" ∈ ((mkState 10 [] false).BreakApartCommands
      (str "G1 X1 (move) ; go\n%\n(M114")).2 ∧
    ((mkState 10 [] false).BreakApartCommands (str "G1 X1 (move) ; go\n%\n(M114")).2
      = [str "G1X1\n", str "(M114\n"] ∧
    (32 : UInt8) ∉ str "G1X1\n" ∧ (str "G1X1\n").getLast? = some 10 := by
  have hm : str "G1X1\n" ∈ ((mkState 10 [] false).BreakApartCommands
      (str "G1 X1 (move) ; go\n%\n(M114")).2 := by decide
  have h := C18_shape_of_commands (mkState 10 [] false) (str "G1 X1 (move) ; go\n%\n(M114")
    (str "G1X1\n") hm
  exact ⟨hm, by decide, h.2.2.2.1, h.2.1⟩

end SPJS
